import Mathlib

/-!
Shallow embedding of the maildir-lite storage engine
(`maildir_lite/maildir.py` and `maildir_lite/message.py`).

Modelling conventions: Python strings are `List Char`, byte strings are
`List Nat`, and filesystem paths are lists of path segments
(`List (List Char)`). Timestamps (Python floats) are modelled as integers:
the code only adds the constants 2 and 5 to timestamps and compares them,
and exact integer arithmetic behaves identically to float arithmetic for
every such use.
-/

namespace MaildirLite

abbrev Chars := List Char

/-- Character list of a Lean string literal. -/
def s2c (s : String) : Chars := s.data

/-- Model of Python `str.split(sep)` for a one-character separator. -/
def splitOnC (c : Char) : Chars → List Chars
  | [] => [[]]
  | a :: as =>
    match splitOnC c as with
    | [] => [[]]
    | s :: ss => if a = c then [] :: s :: ss else (a :: s) :: ss

/-- Decimal digit character (used to model Python `"%s" % n` for an `int`). -/
def decDigit (n : Nat) : Char := Char.ofNat (48 + n % 10)

def natToDecAux : Nat → Nat → Chars
  | 0, _ => []
  | fuel + 1, n => if n = 0 then [] else natToDecAux fuel (n / 10) ++ [decDigit n]

/-- Decimal rendering of a natural number, modelling Python `str(n)`. -/
def natToDec (n : Nat) : Chars := if n = 0 then ['0'] else natToDecAux n n

/-- Hexadecimal digit character. -/
def hexDigit (n : Nat) : Char :=
  if n % 16 < 10 then Char.ofNat (48 + n % 16) else Char.ofNat (87 + n % 16)

def natToHexAux : Nat → Nat → Chars
  | 0, _ => []
  | fuel + 1, n => if n = 0 then [] else natToHexAux fuel (n / 16) ++ [hexDigit n]

/-- Lowercase hexadecimal rendering of a natural number. -/
def natToHex (n : Nat) : Chars := if n = 0 then ['0'] else natToHexAux n n

/-- Modelled from the spec: `hashlib.md5(content).hexdigest()` from the Python
standard library (an external collaborator, not part of this repository) is
modelled as a deterministic digest rendered in lowercase hexadecimal; only
determinism and the hexadecimal output alphabet are relied upon. -/
def md5Hex (content : List Nat) : Chars :=
  natToHex (content.foldl (fun a b => (a * 131 + b % 256) % (2 ^ 64)) 7)

/-! Python `dict` modelled as an insertion-ordered association list. -/

/-- Lookup in a Python dict (`d[k]`, returning `none` for a `KeyError`). -/
def dget {K V : Type} [DecidableEq K] : List (K × V) → K → Option V
  | [], _ => none
  | a :: as, k => if a.1 = k then some a.2 else dget as k

/-- Assignment `d[k] = v` on a Python dict: replace the value of the (unique)
existing entry in place, or append a new entry. -/
def dinsert {K V : Type} [DecidableEq K] : List (K × V) → K → V → List (K × V)
  | [], k, v => [(k, v)]
  | a :: as, k, v => if a.1 = k then (k, v) :: as else a :: dinsert as k v

/-- Deletion `del d[k]` on a Python dict; `none` models the `KeyError`. -/
def ddel {K V : Type} [DecidableEq K] : List (K × V) → K → Option (List (K × V))
  | [], _ => none
  | a :: as, k =>
    if a.1 = k then some as else (ddel as k).map (fun m => a :: m)

/-- Model of Python `"".join(sorted(set(s)))`: the distinct characters of `s`
in ascending order. -/
def sortedUnique (s : Chars) : Chars :=
  List.insertionSort (fun a b => a ≤ b) s.dedup

/-! Model of `maildir_lite/message.py`. -/

/-- Python truthiness of an optional string (`None` and `""` are falsy). -/
def truthyOS : Option Chars → Bool
  | none => false
  | some s => decide (s ≠ [])

/-- Python `"%s" % x` for a value that is either a string or `None`. -/
def fmtOptStr : Option Chars → Chars
  | none => s2c "None"
  | some s => s

/-- Python dynamically-typed scalar: the `msg_size` / `msg_vsize` fields hold
an `int` when computed from the content and a `str` when parsed back out of a
msgid (`message.py` lines 110-113 assign the split substring directly). -/
inductive PyScalar where
  | pnat (n : Nat)
  | pstr (s : Chars)
deriving DecidableEq

/-- Python truthiness (`0` and `""` are falsy). -/
def PyScalar.truthy : PyScalar → Bool
  | pnat n => decide (n ≠ 0)
  | pstr s => decide (s ≠ [])

/-- Python `"%s" % x`. -/
def PyScalar.fmt : PyScalar → Chars
  | pnat n => natToDec n
  | pstr s => s

/-- In-memory state of a `Message` instance (`message.py` lines 14-23).
`pdate` is the `_date` cache, holding a resolved timestamp. -/
structure PyMsg where
  content : List Nat
  pdate : Option ℤ
  subdir : Chars
  msg_id : Chars
  msg_md5 : Option Chars
  msg_size : PyScalar
  msg_vsize : PyScalar
  info : Option Chars
  mtime : ℤ
deriving DecidableEq

/-- Model of the `Message.content_hash` property (`message.py` lines 129-133).
The property caches the digest on the instance, so the updated record is
returned alongside the value. -/
def PyMsg.contentHash (m : PyMsg) : Option Chars × PyMsg :=
  if ¬ truthyOS m.msg_md5 ∧ m.content ≠ [] then
    let h := md5Hex m.content
    (some h, { m with msg_md5 := some h })
  else (m.msg_md5, m)

/-- Model of the `Message.msgid` getter (`message.py` lines 81-99): the stored
`msg_id` followed by the `MD5` / `S` / `W` properties in sorted key order.
The getter mutates the record (caching the digest), so the updated record is
returned. A `None` digest is rendered as the string `None` by `"%s"`. -/
def PyMsg.msgidGet (m : PyMsg) : Chars × PyMsg :=
  let step1 : Option Chars × PyMsg :=
    if truthyOS m.msg_md5 then (m.msg_md5, m)
    else
      let c := m.contentHash
      (c.1, { c.2 with msg_md5 := c.1 })
  let m1 := step1.2
  let sPart := if m1.msg_size.truthy then s2c ",S=" ++ m1.msg_size.fmt else []
  let wPart := if m1.msg_vsize.truthy then s2c ",W=" ++ m1.msg_vsize.fmt else []
  (m1.msg_id ++ s2c ",MD5=" ++ fmtOptStr step1.1 ++ sPart ++ wPart, m1)

/-- Model of the `Message.msgid` setter (`message.py` lines 101-115): split on
commas, store the head as `msg_id`, and parse `k=v` properties; a property
that does not split into exactly two parts raises inside the loop and is
skipped by the bare `except`. -/
def PyMsg.msgidSet (m : PyMsg) (s : Chars) : PyMsg :=
  let parts := splitOnC ',' s
  let m1 := { m with msg_id := parts.headD [] }
  parts.tail.foldl
    (fun acc prop =>
      match splitOnC '=' prop with
      | [k, v] =>
        if k = s2c "MD5" then { acc with msg_md5 := some v }
        else if k = s2c "S" then { acc with msg_size := .pstr v }
        else if k = s2c "W" then { acc with msg_vsize := .pstr v }
        else acc
      | _ => acc)
    m1

/-- Model of `Message.__init__` (`message.py` lines 25-49). `genId` stands for
the value `_gen_msgid()` would return (external entropy: wall clock, random
bits, process group, delivery counter, hostname), used only when `msgidArg`
is falsy. Assignments run in source order: content (through the resetting
setter), subdir, msgid (through the parsing setter), content hash, size,
info, mtime. -/
def mkMessage (content : List Nat) (contentHashArg : Option Chars)
    (subdirArg : Option Chars) (msgidArg : Option Chars) (genId : Chars)
    (infoArg : Option Chars) (mtimeArg : ℤ) : PyMsg :=
  let m0 : PyMsg :=
    { content := content, pdate := none, subdir := s2c "new", msg_id := [],
      msg_md5 := none, msg_size := .pnat 0, msg_vsize := .pnat 0,
      info := none, mtime := 0 }
  let m1 := if truthyOS subdirArg then { m0 with subdir := subdirArg.getD [] } else m0
  let m2 := if truthyOS msgidArg then m1.msgidSet (msgidArg.getD [])
            else m1.msgidSet genId
  let m3 := if truthyOS contentHashArg then { m2 with msg_md5 := contentHashArg } else m2
  let m4 := if ¬ m3.msg_size.truthy then { m3 with msg_size := .pnat m3.content.length }
            else m3
  let m5 := if truthyOS infoArg then { m4 with info := infoArg } else m4
  if mtimeArg ≠ 0 then { m5 with mtime := mtimeArg } else m5

/-- Model of the `Message.flags` getter (`message.py` lines 165-167): the
characters of `info` after the `2,` prelude, or the empty string. -/
def PyMsg.flags (m : PyMsg) : Chars :=
  match m.info with
  | some i => if i ≠ [] ∧ i.headD ' ' = '2' ∧ 2 < i.length then i.drop 2 else []
  | none => []

/-- Model of the `Message.flags` setter (`message.py` lines 169-171). -/
def PyMsg.flagsSet (m : PyMsg) (newflags : Chars) : PyMsg :=
  { m with info := some (s2c "2," ++ newflags) }

/-- Model of `Message.add_flags` (`message.py` lines 173-175): set union with
the current flags, re-serialized in sorted unique order. -/
def PyMsg.addFlags (m : PyMsg) (fl : Chars) : PyMsg :=
  m.flagsSet (sortedUnique (fl ++ m.flags))

/-- Model of `Message.remove_flags` (`message.py` lines 177-180): set
difference from the current flags, re-serialized in sorted unique order. -/
def PyMsg.removeFlags (m : PyMsg) (fl : Chars) : PyMsg :=
  m.flagsSet (sortedUnique (m.flags.filter (fun c => decide (c ∉ fl))))

/-- Model of the `Message.date` property (`message.py` lines 146-163). The
external email-header date extraction (`email.parser` plus
`email.utils.parsedate_to_datetime`, whose failures are swallowed) is
modelled by the oracle `hdr`; headers exist only for nonempty content. -/
def PyMsg.dateGet (hdr : List Nat → Option ℤ) (m : PyMsg) : Option ℤ × PyMsg :=
  match m.pdate with
  | some d => (some d, m)
  | none =>
    match (if m.content ≠ [] then hdr m.content else none) with
    | some d => (some d, { m with pdate := some d })
    | none =>
      if m.mtime ≠ 0 then (some m.mtime, { m with pdate := some m.mtime })
      else (none, m)

/-! Model of the filesystem and host environment used by `maildir.py`.
Paths are lists of segments; times are rationals (Python floats). -/

abbrev Path := List Chars

/-- On-disk state of one regular file, with the stat fields the code
observes. -/
structure FileRec where
  content : List Nat
  mtime : ℤ
  ctime : ℤ
  ino : Nat
deriving DecidableEq

/-- Host state: regular files, directories with their mtimes, the extended
attributes written by this code (content hash and date, per attribute name),
whether the filesystem accepts xattr calls (`false` models the `IOError`
path), the external email-header date parser, the stream of ids
`Message._gen_msgid` would produce, and the current clock. -/
structure World where
  files : List (Path × FileRec)
  dirs : List (Path × ℤ)
  xattrMd5 : List (Path × Chars)
  xattrDate : List (Path × ℤ)
  xattrOk : Bool
  hdrDate : List Nat → Option ℤ
  genIds : Nat → Chars
  genCtr : Nat
  nextIno : Nat
  now : ℤ

def fsGet (w : World) (p : Path) : Option FileRec := dget w.files p

/-- Model of `os.path.isdir`. -/
def isdirW (w : World) (p : Path) : Bool := (dget w.dirs p).isSome

/-- Model of `os.path.exists`. -/
def existsW (w : World) (p : Path) : Bool := (fsGet w p).isSome || isdirW w p

/-- Model of `os.path.getmtime`, defined on files and directories; `none`
models the raised `OSError`. -/
def getmtimeW (w : World) (p : Path) : Option ℤ :=
  match fsGet w p with
  | some f => some f.mtime
  | none => dget w.dirs p

/-- Bump a directory mtime to the current time (entry creation or removal
inside it). -/
def touchDir (w : World) (p : Path) : World :=
  if isdirW w p then { w with dirs := dinsert w.dirs p w.now } else w

/-- Model of `open(p, "wb")` / `write` / close: truncate an existing file or
create a fresh one (which also touches the containing directory). -/
def fsWrite (w : World) (p : Path) (content : List Nat) : World :=
  match fsGet w p with
  | some f =>
    let f1 := { f with content := content, mtime := w.now, ctime := w.now }
    { w with files := dinsert w.files p f1 }
  | none =>
    let w1 := { w with
      files := dinsert w.files p ⟨content, w.now, w.now, w.nextIno⟩,
      nextIno := w.nextIno + 1 }
    touchDir w1 p.dropLast

/-- Model of `os.utime(p, (t, t))`; `none` models the raised `OSError`. -/
def utimeW (w : World) (p : Path) (t : ℤ) : Option World :=
  match fsGet w p with
  | some f =>
    let f1 := { f with mtime := t, ctime := w.now }
    some { w with files := dinsert w.files p f1 }
  | none => none

/-- Model of `os.rename` for a regular file: atomic move preserving inode,
content and mtime, updating ctime and the directory mtimes. -/
def renameW (w : World) (src dst : Path) : Option World :=
  match fsGet w src with
  | some f =>
    let pruned := w.files.filter (fun kv => decide (kv.1 ≠ src))
    let f1 := { f with ctime := w.now }
    let w1 := { w with files := dinsert pruned dst f1 }
    some (touchDir (touchDir w1 src.dropLast) dst.dropLast)
  | none => none

/-- Model of `os.remove`; `none` models the raised `OSError`. -/
def removeW (w : World) (p : Path) : Option World :=
  match fsGet w p with
  | some _ =>
    some (touchDir
      { w with files := w.files.filter (fun kv => decide (kv.1 ≠ p)) }
      p.dropLast)
  | none => none

/-- The fields of `os.stat_result` this code compares. -/
structure StatRec where
  ino : Nat
  size : Nat
  mtime : ℤ
  ctime : ℤ
deriving DecidableEq

/-- Model of `os.stat`; `none` models the raised `OSError`. -/
def statW (w : World) (p : Path) : Option StatRec :=
  (fsGet w p).map (fun f => ⟨f.ino, f.content.length, f.mtime, f.ctime⟩)

/-- Model of `os.scandir`: entries of a directory as (name, full path,
is-regular-file); files listed before subdirectories (`os.scandir` promises
no particular order). -/
def scandirW (w : World) (d : Path) : List (Chars × Path × Bool) :=
  (w.files.filterMap fun pf =>
    match pf.1.getLast? with
    | some n => if pf.1.dropLast = d then some (n, pf.1, true) else none
    | none => none) ++
  (w.dirs.filterMap fun pd =>
    match pd.1.getLast? with
    | some n => if pd.1.dropLast = d then some (n, pd.1, false) else none
    | none => none)

/-- Rendering of a segment path as the absolute path string `os.path.join`
would build (each segment preceded by a slash), used where the code compares
paths with `str.startswith`. -/
def pathStr (p : Path) : Chars := p.foldl (fun acc s => acc ++ '/' :: s) []

/-! Model of the `Maildir` class (`maildir.py`). -/

/-- In-memory state of a `Maildir` instance (`maildir.py` lines 31-46):
`keys` is `_keys`, `lastUpdate` is `_last_update`, and `parent` records
`_parent.path` when the parent directory opened as a store. -/
structure MaildirState where
  path : Path
  keys : List (Chars × Path)
  lastUpdate : ℤ
  lazy : Bool
  lazyPeriod : ℤ
  useXattrs : Bool
  fsLayout : Bool
  folderSep : Char
  parent : Option Path
deriving DecidableEq

/-- The values of the `paths` dict in insertion order: `cur`, `new`, `tmp`
(`maildir.py` lines 54-58). -/
def subdirPaths (st : MaildirState) : List Path :=
  [st.path ++ [s2c "cur"], st.path ++ [s2c "new"], st.path ++ [s2c "tmp"]]

/-- The staleness loop of `_refresh_msgs` (`maildir.py` lines 127-130):
stop at the first subdirectory whose mtime exceeds the two-second grace
window past `_last_update`; `none` models the uncaught `OSError` from
`os.path.getmtime`. -/
def staleAny (st : MaildirState) (w : World) : List Path → Option Bool
  | [] => some false
  | d :: ds =>
    match getmtimeW w d with
    | none => none
    | some t => if st.lastUpdate + 2 < t then some true else staleAny st w ds

/-- One subdirectory pass of the rescan loop (`maildir.py` lines 139-145):
skip hidden names, key each regular file by the part of its name before the
first colon. -/
def scanDirInto (w : World) (acc : List (Chars × Path)) (d : Path) :
    List (Chars × Path) :=
  if isdirW w d then
    (scandirW w d).foldl
      (fun acc2 ent =>
        if ent.1.headD ' ' = '.' then acc2
        else if ent.2.2 then dinsert acc2 ((splitOnC ':' ent.1).headD []) ent.2.1
        else acc2)
      acc
  else acc

/-- The state after the wholesale rescan of `_refresh_msgs` (`maildir.py`
lines 136-145): `_last_update` set to the current time and `_keys` rebuilt
from scratch by scanning `cur`, `new` and `tmp`. -/
def rescanState (st : MaildirState) (w : World) : MaildirState :=
  { st with lastUpdate := w.now,
            keys := (subdirPaths st).foldl (scanDirInto w) [] }

/-- Model of `Maildir._refresh_msgs` (`maildir.py` lines 117-145): refresh
when the key map is empty; otherwise return early in lazy mode within the
lazy period, else rescan wholesale when some subdirectory mtime is past the
grace window. `none` models the uncaught `OSError`. -/
def refreshMsgs (st : MaildirState) (w : World) : Option MaildirState :=
  if st.keys = [] then some (rescanState st w)
  else if st.lazy ∧ w.now < st.lastUpdate + st.lazyPeriod then some st
  else
    match staleAny st w (subdirPaths st) with
    | none => none
    | some true => some (rescanState st w)
    | some false => some st

/-- Model of `Maildir.keys` (`maildir.py` lines 287-289). -/
def keysOp (st : MaildirState) (w : World) :
    Option (List Chars × MaildirState) :=
  (refreshMsgs st w).map (fun st2 => (st2.keys.map Prod.fst, st2))

/-- Model of `Maildir._path_for_key` (`maildir.py` lines 147-159): trust a
cached entry whose file still exists, otherwise refresh and look up again;
`none` models the propagated `KeyError` / `OSError`. -/
def pathForKey (st : MaildirState) (w : World) (key : Chars) :
    Option (Path × MaildirState) :=
  match dget st.keys key with
  | some p =>
    if existsW w p then some (p, st)
    else do
      let st2 ← refreshMsgs st w
      let p2 ← dget st2.keys key
      some (p2, st2)
  | none => do
      let st2 ← refreshMsgs st w
      let p2 ← dget st2.keys key
      some (p2, st2)

/-- Model of `Maildir._path_for_message` (`maildir.py` lines 170-175). The
msgid getter inside mutates the record, which is returned updated.
Modelling note: line 172 tests `message.subdir is "cur"`, a CPython identity
test, modelled here as string equality. The two agree whenever the subdir
differs from `cur` as a string (identity implies equality) or was assigned
from the interned literal — as on the promotion path inside `get_message` —
and diverge for a flagless `cur` record whose subdir was recomputed from an
on-disk path by `os.path.split`, where CPython takes the bare-id branch but
this model appends the info suffix. Theorems about the suffix branch are
therefore stated only under a nonempty flag set, where both semantics
coincide. -/
def pathForMessage (st : MaildirState) (m : PyMsg) : Path × PyMsg :=
  let fm := m.msgidGet
  let m1 := fm.2
  let filename :=
    if m1.subdir = s2c "cur" ∨ m1.flags ≠ [] then
      fm.1 ++ ':' :: (if truthyOS m1.info then m1.info.getD [] else s2c "2,")
    else fm.1
  (st.path ++ [m1.subdir, filename], m1)

def XATTR_MD5SUM : Chars := s2c "user.md5sum"
def XATTR_DATE : Chars := s2c "user.date"

/-- Model of `Maildir._write_message` (`maildir.py` lines 245-261): write the
bytes, best-effort record the content hash as an extended attribute (an
`IOError` there permanently disables the capability for this instance), then
set the file mtime. `none` models an uncaught `OSError` from `os.utime`. -/
def writeMessage (st : MaildirState) (w : World) (m : PyMsg) :
    Option (MaildirState × World × PyMsg) :=
  let pm := pathForMessage st m
  let msgPath := pm.1
  let w1 := fsWrite w msgPath (pm.2).content
  let afterX : MaildirState × World × PyMsg :=
    if st.useXattrs then
      let ch := (pm.2).contentHash
      if truthyOS ch.1 then
        if w1.xattrOk then
          (st, { w1 with xattrMd5 := dinsert w1.xattrMd5 msgPath (ch.1.getD []) }, ch.2)
        else ({ st with useXattrs := false }, w1, ch.2)
      else (st, w1, ch.2)
    else (st, w1, pm.2)
  (utimeW afterX.2.1 msgPath (afterX.2.2).mtime).map
    (fun w2 => (afterX.1, w2, afterX.2.2))

/-- Model of `Maildir._message_at_path` (`maildir.py` lines 185-242): read
the file, decode msgid / info / subdir from its path, and run the xattr
cache block when the capability is on (hash and date are read from, or
written through to, the attributes; an `IOError` disables the capability and
still returns the message). `none` models the `KeyError` raised on a missing
file, or the uncaught `AttributeError` when the date write-back resolves no
date. -/
def messageAtPath (st : MaildirState) (w : World) (p : Path)
    (loadContent : Bool) : Option (PyMsg × MaildirState × World) := do
  let f ← fsGet w p
  let content := if loadContent then f.content else []
  let mtime := f.mtime
  let filename := (p.getLast?).getD []
  let subdir := ((p.dropLast).getLast?).getD []
  let parts := splitOnC ':' filename
  let msgid := parts.headD []
  let info := parts[1]?
  let m := mkMessage content none (some subdir) (some msgid)
      (w.genIds w.genCtr) info mtime
  if ¬ truthyOS m.msg_md5 ∧ st.useXattrs ∧ loadContent then
    if w.xattrOk then
      let hashStep : PyMsg × World :=
        match dget w.xattrMd5 p with
        | some hv => ({ m with msg_md5 := some hv }, w)
        | none =>
          let ch := m.contentHash
          match ch.1 with
          | some c => (ch.2, { w with xattrMd5 := dinsert w.xattrMd5 p c })
          | none => (ch.2, w)
      let m1 := hashStep.1
      let w1 := hashStep.2
      match dget w1.xattrDate p with
      | some dv => some ({ m1 with pdate := some dv }, st, w1)
      | none =>
        let dg := m1.dateGet w1.hdrDate
        match dg.1 with
        | some d =>
          some (dg.2, st, { w1 with xattrDate := dinsert w1.xattrDate p d })
        | none => none
    else some (m, { st with useXattrs := false }, w)
  else some (m, st, w)

/-- Model of `Maildir.update` (`maildir.py` lines 318-348): rename when the
canonical path changed, then re-verify content and mtime when the stat
changed. Returns the final msgid with the updated store, world and message
record. -/
def updateOp (st : MaildirState) (w : World) (key : Chars) (m : PyMsg) :
    Option (Chars × MaildirState × World × PyMsg) := do
  let (oldPath, st1) ← pathForKey st w key
  let oldStat ← statW w oldPath
  let pm := pathForMessage st1 m
  let newPath := pm.1
  let m1 := pm.2
  let (st2, w1) ←
    if oldPath ≠ [] ∧ oldPath ≠ newPath then do
      let w2 ← renameW w oldPath newPath
      some ({ st1 with keys := dinsert st1.keys key newPath,
                       lastUpdate := if st1.lazy then w.now else 0 }, w2)
    else some (st1, w)
  let newStat ← statW w1 newPath
  if ¬ oldStat = newStat then
    let (oldMsg, st3, w2) ← messageAtPath st2 w1 newPath true
    if oldMsg.content ≠ m1.content then
      let (st4, w3, m2) ← writeMessage st3 w2 m1
      let r := m2.msgidGet
      some (r.1, st4, w3, r.2)
    else
      if newStat.mtime ≠ m1.mtime then
        let w3 ← utimeW w2 newPath m1.mtime
        let r := m1.msgidGet
        some (r.1, st3, w3, r.2)
      else
        let r := m1.msgidGet
        some (r.1, st3, w2, r.2)
  else
    let r := m1.msgidGet
    some (r.1, st2, w1, r.2)

/-- Model of `Maildir.get_message` (`maildir.py` lines 264-272): resolve the
key, load the record, and on a `new` record promote it to `cur` and re-fetch
through `self[msg.msgid]`. `fuel` bounds that recursion (unbounded in
Python); `none` also models fuel exhaustion. -/
def getMessage : Nat → MaildirState → World → Chars → Bool →
    Option (PyMsg × MaildirState × World)
  | 0, _, _, _, _ => none
  | fuel + 1, st, w, key, loadContent => do
    let (p, st1) ← pathForKey st w key
    let (m, st2, w1) ← messageAtPath st1 w p loadContent
    if m.subdir = s2c "new" then
      let m1 := { m with subdir := s2c "cur" }
      let (_, st3, w2, m2) ← updateOp st2 w1 key m1
      let r := m2.msgidGet
      getMessage fuel st3 w2 r.1 true
    else
      some (m, st2, w1)

/-- The id re-roll loop of `Maildir.add` (`maildir.py` lines 300-302);
`fuel` bounds the unbounded Python `while`. -/
def rerollLoop : Nat → PyMsg → MaildirState → World →
    Option (PyMsg × MaildirState × World)
  | 0, _, _, _ => none
  | fuel + 1, m, st, w => do
    let (ks, st1) ← keysOp st w
    let r := m.msgidGet
    if r.1 ∈ ks then
      let m1 := r.2.msgidSet (w.genIds w.genCtr)
      rerollLoop fuel m1 st1 { w with genCtr := w.genCtr + 1 }
    else
      some (r.2, st1, w)

/-- Model of `Maildir.add` (`maildir.py` lines 294-316): build the record in
`tmp`, ensure a unique id, write it out, register the key, then move it to
its destination subdirectory through `update`. -/
def addOp (st : MaildirState) (w : World) (content : List Nat)
    (msgidArg : Option Chars) (subdirArg : Option Chars)
    (infoArg : Option Chars) (mtimeArg : Option ℤ)
    (contentHashArg : Option Chars) (fuel : Nat) :
    Option (Chars × MaildirState × World × PyMsg) := do
  let mt : ℤ := match mtimeArg with
    | some t => if t ≠ 0 then t else w.now
    | none => w.now
  let seed : PyMsg × World :=
    if truthyOS msgidArg then
      (mkMessage content contentHashArg (some (s2c "tmp")) msgidArg []
        infoArg mt, w)
    else
      (mkMessage content contentHashArg (some (s2c "tmp")) msgidArg
        (w.genIds w.genCtr) infoArg mt, { w with genCtr := w.genCtr + 1 })
  let (m1, st1, w1) ← rerollLoop fuel seed.1 st seed.2
  let (st2, w2, m2) ← writeMessage st1 w1 m1
  let pm := pathForMessage st2 m2
  let r := pm.2.msgidGet
  let st3 := { st2 with keys := dinsert st2.keys r.1 pm.1 }
  let m3 := r.2
  let m4 :=
    if truthyOS subdirArg then { m3 with subdir := subdirArg.getD [] }
    else if m3.flags ≠ [] then { m3 with subdir := s2c "cur" }
    else { m3 with subdir := s2c "new" }
  let r2 := m4.msgidGet
  updateOp st3 w2 r2.1 r2.2

/-- Model of `Maildir.remove` (`maildir.py` lines 350-352). -/
def removeOp (st : MaildirState) (w : World) (key : Chars) :
    Option (MaildirState × World) := do
  let (p, st1) ← pathForKey st w key
  let w1 ← removeW w p
  let ks ← ddel st1.keys key
  some ({ st1 with keys := ks }, w1)

/-- Model of the `Maildir.name` property (`maildir.py` lines 278-285). -/
def storeName (st : MaildirState) : Chars :=
  let base := if st.parent.isSome then (st.path.getLast?).getD []
              else [st.folderSep]
  base.map (fun c => if c = st.folderSep then '/' else c)

/-- Model of `Maildir._path_to_vpath` (`maildir.py` lines 354-360): the last
path segment with the folder separator turned back into slashes. -/
def pathToVpath (st : MaildirState) (p : Path) : Chars :=
  ((p.getLast?).getD []).map (fun c => if c = st.folderSep then '/' else c)

/-- Model of `Maildir._vpath_to_path` (`maildir.py` lines 362-386): anchor at
the parent (for a subfolder) or own path, replace `/` and `:` by the
separator, strip one leading slash, and in Maildir++ mode force a leading
period. `none` models the `IndexError` on indexing an empty string. -/
def vpathToPath (st : MaildirState) (vpath : Chars) : Option Path :=
  let mailboxPath := match st.parent with
    | some pp => pp
    | none => st.path
  let name0 := (vpath.map (fun c => if c = '/' then st.folderSep else c)).map
      (fun c => if c = ':' then st.folderSep else c)
  match name0 with
  | [] => none
  | c0 :: rest =>
    let name1 := if c0 = '/' then rest else c0 :: rest
    let name2 : Option Chars :=
      if st.fsLayout = false then
        match name1 with
        | [] => none
        | c1 :: _ => some (if c1 ≠ '.' then '.' :: name1 else name1)
      else some name1
    name2.map (fun nm => mailboxPath ++ [nm])

/-- The `folder_root` string of `list_folders` (`maildir.py` lines 393-401):
the store's own path, with a literal period appended for a Maildir++
subfolder. -/
def folderRootStr (st : MaildirState) : Chars :=
  if st.parent.isSome ∧ st.fsLayout = false then pathStr st.path ++ ['.']
  else pathStr st.path

/-- The directory `list_folders` scans (`maildir.py` lines 395-401): the
parent's path for a subfolder, the store's own path otherwise. -/
def anchorPath (st : MaildirState) : Path :=
  match st.parent with
  | some pp => pp
  | none => st.path

/-- Model of `Maildir.list_folders` (`maildir.py` lines 388-411): the
store's own name followed by the vpaths of scanned entries that pass the
startswith / is-directory / contains-`cur` test. -/
def listFolders (st : MaildirState) (w : World) : List Chars :=
  storeName st ::
    (scandirW w (anchorPath st)).filterMap (fun ent =>
      if (folderRootStr st).isPrefixOf (pathStr ent.2.1) ∧ ent.2.2 = false ∧
          isdirW w (ent.2.1 ++ [s2c "cur"]) then
        some (pathToVpath st ent.2.1)
      else none)

inductive InitErr where
  | invalidMaildir
  | recursionError
deriving DecidableEq

/-- Model of `os.makedirs(p, mode=0o700, exist_ok=True)`: create the
directory and any missing ancestors. -/
def makedirsW (w : World) (p : Path) : World :=
  (List.range p.length).foldl
    (fun acc i =>
      let q := p.take (i + 1)
      if isdirW acc q then acc
      else { acc with dirs := dinsert acc.dirs q acc.now })
    w

/-- The validation block of `Maildir.__init__` (`maildir.py` lines 60-73):
the path must exist as a directory containing `cur`, unless creation was
requested. -/
def initValidate (w : World) (path : Path) (create : Bool) :
    Except InitErr Unit :=
  if existsW w path then
    if ¬ isdirW w path then .error .invalidMaildir
    else if ¬ isdirW w (path ++ [s2c "cur"]) ∧ ¬ create then
      .error .invalidMaildir
    else .ok ()
  else if create = false then .error .invalidMaildir
  else .ok ()

/-- Model of `Maildir.__init__` (`maildir.py` lines 48-91), as
`maildirInit fuel w path create lazy xattrArg fsLayout hasXattr`. `fuel`
bounds the recursive parent-store construction of line 83, which in Python
terminates only when an ancestor fails validation; exhausted fuel models the
`RecursionError`, which the `except InvalidMaildirError` clause does not
catch. `os.path.abspath(os.path.expanduser(path))` is modelled as the
identity on the already-absolute segment paths, and `hasXattr` models the
module-level pyxattr import success. The capability computed on lines 87-91
goes into a local variable `_use_xattrs` that shadows the class attribute
and is discarded, so the instance keeps the class default `False`. -/
def maildirInit : Nat → World → Path → Bool → Bool → Bool → Bool → Bool →
    Except InitErr (MaildirState × World)
  | 0, _, _, _, _, _, _, _ => .error .recursionError
  | fuel + 1, w, path, create, lazy, xattrArg, fsLayout, hasXattr =>
    let sep : Char := if fsLayout then '/' else '.'
    match initValidate w path create with
    | .error e => .error e
    | .ok _ =>
      let w1 := if create then
          makedirsW (makedirsW (makedirsW w (path ++ [s2c "cur"]))
            (path ++ [s2c "new"])) (path ++ [s2c "tmp"])
        else w
      match maildirInit fuel w1 path.dropLast false false false fsLayout
          hasXattr with
      | .error .recursionError => .error .recursionError
      | pres =>
        let parent : Option Path :=
          match pres with
          | .ok (ps, _) => some ps.path
          | .error _ => none
        let localUseXattrs := if xattrArg then hasXattr else false
        let _ := localUseXattrs
        .ok ({ path := path, keys := [], lastUpdate := 0, lazy := lazy,
               lazyPeriod := 5, useXattrs := false, fsLayout := fsLayout,
               folderSep := sep, parent := parent }, w1)

inductive FolderErr where
  | noSuchMailbox
  | indexError
deriving DecidableEq

/-- Model of `Maildir.get_folder` (`maildir.py` lines 413-425): the `None`,
empty and `"/"` vpaths return the same store instance immediately without
touching the filesystem; otherwise open the child store, turning any
construction failure into `NoSuchMailboxError` through the bare `except`
(the `IndexError` from `_vpath_to_path` happens outside the `try` and
propagates as itself). -/
def getFolder (fuel : Nat) (st : MaildirState) (w : World)
    (vpath : Option Chars) (hasXattr : Bool) :
    Except FolderErr MaildirState :=
  if vpath = none ∨ vpath = some [] ∨ vpath = some ['/'] then .ok st
  else
    match vpathToPath st (vpath.getD []) with
    | none => .error .indexError
    | some p =>
      match maildirInit fuel w p false st.lazy st.useXattrs st.fsLayout
          hasXattr with
      | .ok (m, _) => .ok { m with lazyPeriod := st.lazyPeriod }
      | .error _ => .error .noSuchMailbox

/-! Concrete host states used to instantiate theorems with hypotheses and to
exhibit counterexamples. -/

/-- A root Maildir++ store as `maildirInit` builds it for the path `/m`. -/
def st0 : MaildirState :=
  { path := [s2c "m"], keys := [], lastUpdate := 0, lazy := false,
    lazyPeriod := 5, useXattrs := false, fsLayout := false, folderSep := '.',
    parent := none }

/-- A quiet world holding an empty maildir at `/m`. -/
def w0 : World :=
  { files := [],
    dirs := [([s2c "m"], 50), ([s2c "m", s2c "cur"], 50),
             ([s2c "m", s2c "new"], 50), ([s2c "m", s2c "tmp"], 50)],
    xattrMd5 := [], xattrDate := [], xattrOk := true,
    hdrDate := fun _ => none, genIds := fun _ => s2c "g", genCtr := 0,
    nextIno := 0, now := 100 }

/-- A message record carrying the single flag `S` (its `info` is `2,S`). -/
def mC4 : PyMsg :=
  { content := [], pdate := none, subdir := s2c "new", msg_id := s2c "a",
    msg_md5 := none, msg_size := .pnat 0, msg_vsize := .pnat 0,
    info := some (s2c "2,S"), mtime := 0 }

/-- A lazy store on `/m` whose key map holds one message `k` in `new`,
last refreshed at time 99. -/
def stL : MaildirState :=
  { path := [s2c "m"], keys := [(s2c "k", [s2c "m", s2c "new", s2c "k"])],
    lastUpdate := 99, lazy := true, lazyPeriod := 5, useXattrs := false,
    fsLayout := false, folderSep := '.', parent := none }

/-- A world at time 100 holding the messages `k` and `f` in `/m/new`. -/
def wL : World :=
  { files := [([s2c "m", s2c "new", s2c "k"], ⟨[1], 99, 99, 0⟩),
              ([s2c "m", s2c "new", s2c "f"], ⟨[2], 99, 99, 1⟩)],
    dirs := [([s2c "m"], 99), ([s2c "m", s2c "cur"], 99),
             ([s2c "m", s2c "new"], 99), ([s2c "m", s2c "tmp"], 99)],
    xattrMd5 := [], xattrDate := [], xattrOk := true,
    hdrDate := fun _ => none, genIds := fun _ => s2c "g", genCtr := 0,
    nextIno := 2, now := 100 }

/-- The staged record `add` builds for content `C` and generated id `gid`
(its digest is cached by the first msgid serialization when the content is
nonempty, and stays absent when the content is empty). -/
def seedMsg (C : List Nat) (gid : Chars) (t : ℤ) : PyMsg :=
  { content := C, pdate := none, subdir := s2c "tmp", msg_id := gid,
    msg_md5 := if C = [] then none else some (md5Hex C),
    msg_size := .pnat C.length, msg_vsize := .pnat 0,
    info := none, mtime := t }

/-- The serialized msgid of the staged record: the generated id followed by
the `MD5` property (`None` for empty content) and, for nonempty content, the
`S` size property. -/
def seedKey (C : List Nat) (gid : Chars) : Chars :=
  if C = [] then gid ++ s2c ",MD5=None"
  else gid ++ s2c ",MD5=" ++ md5Hex C ++ s2c ",S=" ++ natToDec C.length

/-- The record `_message_at_path` decodes back from a delivered file whose
name serializes the staged key (the parsed `S` property is a string). -/
def deliveredMsg (C : List Nat) (gid sd : Chars) (inf : Option Chars)
    (t : ℤ) : PyMsg :=
  { content := C, pdate := none, subdir := sd, msg_id := gid,
    msg_md5 := some (if C = [] then s2c "None" else md5Hex C),
    msg_size := if C = [] then .pnat 0 else .pstr (natToDec C.length),
    msg_vsize := .pnat 0, info := inf, mtime := t }

theorem splitOnC_ne_nil (c : Char) (s : Chars) : splitOnC c s ≠ [] := by
  induction s with
  | nil => simp [splitOnC]
  | cons a as ih =>
    simp only [splitOnC]
    match h : splitOnC c as with
    | [] => simp
    | s :: ss => by_cases hac : a = c <;> simp [hac]

theorem splitOnC_of_not_mem {c : Char} {s : Chars} (h : c ∉ s) :
    splitOnC c s = [s] := by
  induction s with
  | nil => rfl
  | cons a as ih =>
    simp only [List.mem_cons, not_or] at h
    have hac : ¬ a = c := fun he => h.1 he.symm
    have hstep : splitOnC c (a :: as) =
        match splitOnC c as with
        | [] => [[]]
        | s :: ss => if a = c then [] :: s :: ss else (a :: s) :: ss := rfl
    rw [hstep, ih h.2]
    simp [hac]

theorem splitOnC_append {c : Char} {s₁ s₂ : Chars} (h : c ∉ s₁) :
    splitOnC c (s₁ ++ c :: s₂) = s₁ :: splitOnC c s₂ := by
  induction s₁ with
  | nil =>
    simp only [List.nil_append, splitOnC]
    match hs : splitOnC c s₂ with
    | [] => exact absurd hs (splitOnC_ne_nil c s₂)
    | t :: ts => simp
  | cons a as ih =>
    simp only [List.mem_cons, not_or] at h
    have hac : ¬ a = c := fun he => h.1 he.symm
    have hstep : splitOnC c (a :: (as ++ c :: s₂)) =
        match splitOnC c (as ++ c :: s₂) with
        | [] => [[]]
        | s :: ss => if a = c then [] :: s :: ss else (a :: s) :: ss := rfl
    rw [List.cons_append, hstep, ih h.2]
    simp [hac]

theorem decDigit_plain (n : Nat) :
    decDigit n ≠ ',' ∧ decDigit n ≠ ':' ∧ decDigit n ≠ '=' := by
  have h : n % 10 < 10 := Nat.mod_lt _ (by decide)
  unfold decDigit
  set m := n % 10 with hm
  interval_cases m <;> exact ⟨by decide, by decide, by decide⟩

theorem hexDigit_plain (n : Nat) :
    hexDigit n ≠ ',' ∧ hexDigit n ≠ ':' ∧ hexDigit n ≠ '=' := by
  have h : n % 16 < 16 := Nat.mod_lt _ (by decide)
  unfold hexDigit
  set m := n % 16 with hm
  interval_cases m <;> exact ⟨by decide, by decide, by decide⟩

theorem natToDecAux_plain (fuel n : Nat) :
    ∀ c ∈ natToDecAux fuel n, c ≠ ',' ∧ c ≠ ':' ∧ c ≠ '=' := by
  induction fuel generalizing n with
  | zero => intro c hc; simp [natToDecAux] at hc
  | succ f ih =>
    intro c hc
    simp only [natToDecAux] at hc
    by_cases hn : n = 0
    · simp [hn] at hc
    · simp only [hn, if_false, List.mem_append, List.mem_singleton] at hc
      rcases hc with hc | hc
      · exact ih _ c hc
      · subst hc; exact decDigit_plain n

theorem natToDec_plain (n : Nat) :
    ∀ c ∈ natToDec n, c ≠ ',' ∧ c ≠ ':' ∧ c ≠ '=' := by
  intro c hc
  unfold natToDec at hc
  by_cases hn : n = 0
  · simp [hn] at hc; subst hc; exact ⟨by decide, by decide, by decide⟩
  · simp only [hn, if_false] at hc; exact natToDecAux_plain n n c hc

theorem natToHexAux_plain (fuel n : Nat) :
    ∀ c ∈ natToHexAux fuel n, c ≠ ',' ∧ c ≠ ':' ∧ c ≠ '=' := by
  induction fuel generalizing n with
  | zero => intro c hc; simp [natToHexAux] at hc
  | succ f ih =>
    intro c hc
    simp only [natToHexAux] at hc
    by_cases hn : n = 0
    · simp [hn] at hc
    · simp only [hn, if_false, List.mem_append, List.mem_singleton] at hc
      rcases hc with hc | hc
      · exact ih _ c hc
      · subst hc; exact hexDigit_plain n

theorem natToHex_plain (n : Nat) :
    ∀ c ∈ natToHex n, c ≠ ',' ∧ c ≠ ':' ∧ c ≠ '=' := by
  intro c hc
  unfold natToHex at hc
  by_cases hn : n = 0
  · simp [hn] at hc; subst hc; exact ⟨by decide, by decide, by decide⟩
  · simp only [hn, if_false] at hc; exact natToHexAux_plain n n c hc

theorem md5Hex_plain (content : List Nat) :
    ∀ c ∈ md5Hex content, c ≠ ',' ∧ c ≠ ':' ∧ c ≠ '=' :=
  natToHex_plain _

theorem natToHex_ne_nil (n : Nat) : natToHex n ≠ [] := by
  unfold natToHex
  by_cases hn : n = 0
  · simp [hn]
  · simp only [hn, if_false]
    match hf : n with
    | 0 => exact absurd rfl hn
    | m + 1 => simp [natToHexAux, hn]

theorem md5Hex_ne_nil (content : List Nat) : md5Hex content ≠ [] :=
  natToHex_ne_nil _

theorem dget_dinsert {K V : Type} [DecidableEq K]
    (m : List (K × V)) (k : K) (v : V) : dget (dinsert m k v) k = some v := by
  induction m with
  | nil => simp [dget, dinsert]
  | cons a as ih =>
    by_cases hak : a.1 = k
    · simp [dget, dinsert, hak]
    · simp [dget, dinsert, hak, ih]

theorem dget_dinsert_ne {K V : Type} [DecidableEq K]
    (m : List (K × V)) (k k2 : K) (v : V) (h : k2 ≠ k) :
    dget (dinsert m k v) k2 = dget m k2 := by
  induction m with
  | nil => simp [dget, dinsert, Ne.symm h]
  | cons a as ih =>
    by_cases hak : a.1 = k
    · simp [dget, dinsert, hak, Ne.symm h]
    · by_cases hak2 : a.1 = k2
      · simp [dget, dinsert, hak, hak2, h]
      · simp [dget, dinsert, hak, hak2, ih]

theorem mem_sortedUnique {c : Char} {s : Chars} :
    c ∈ sortedUnique s ↔ c ∈ s := by
  unfold sortedUnique
  rw [(List.perm_insertionSort _ _).mem_iff, List.mem_dedup]

theorem sortedUnique_nodup (s : Chars) : (sortedUnique s).Nodup :=
  (List.perm_insertionSort _ _).nodup_iff.mpr s.nodup_dedup

theorem sortedUnique_sorted (s : Chars) :
    (sortedUnique s).Sorted (fun a b : Char => a ≤ b) :=
  List.sorted_insertionSort _ _

theorem sortedUnique_congr {s₁ s₂ : Chars}
    (h : ∀ c, c ∈ s₁ ↔ c ∈ s₂) : sortedUnique s₁ = sortedUnique s₂ := by
  apply List.eq_of_perm_of_sorted _ (sortedUnique_sorted s₁) (sortedUnique_sorted s₂)
  rw [List.perm_ext_iff_of_nodup (sortedUnique_nodup s₁) (sortedUnique_nodup s₂)]
  intro a
  rw [mem_sortedUnique, mem_sortedUnique]
  exact h a

/-! Basic facts about the message model. -/

theorem flags_flagsSet (m : PyMsg) (s : Chars) : (m.flagsSet s).flags = s := by
  have h2 : s2c "2," = ['2', ','] := rfl
  unfold PyMsg.flagsSet PyMsg.flags
  rw [h2]
  cases s with
  | nil => simp
  | cons a as => simp [Nat.succ_lt_succ_iff]

theorem addFlags_flags (m : PyMsg) (F : Chars) :
    (m.addFlags F).flags = sortedUnique (F ++ m.flags) := by
  unfold PyMsg.addFlags
  exact flags_flagsSet _ _

theorem removeFlags_flags (m : PyMsg) (F : Chars) :
    (m.removeFlags F).flags =
      sortedUnique (m.flags.filter (fun c => decide (c ∉ F))) := by
  unfold PyMsg.removeFlags
  exact flags_flagsSet _ _

/-- C4 counterexample: for a record already carrying flag `S`, `add_flags("S")`
followed by `remove_flags("S")` does not restore the original flag set — the
flag `S` is gone, refuting the restore clause of the claim at this input. -/
theorem C4_counterexample :
    'S' ∈ mC4.flags ∧
    'S' ∉ ((mC4.addFlags (s2c "S")).removeFlags (s2c "S")).flags := by
  decide

/-- C4 (amended): `add_flags(F)` applied twice yields the same `info` as
applied once; `add_flags(F)` then `remove_flags(F)` yields the original flag
set minus `F`, and hence restores the original flag set when `F` is disjoint
from it; the resulting flag encoding is always sorted and deduplicated. -/
theorem C4_flag_set_algebra (m : PyMsg) (F : Chars) :
    ((m.addFlags F).addFlags F).info = (m.addFlags F).info ∧
    (∀ c, c ∈ ((m.addFlags F).removeFlags F).flags ↔
      c ∈ m.flags ∧ c ∉ F) ∧
    ((∀ c ∈ F, c ∉ m.flags) →
      ∀ c, c ∈ ((m.addFlags F).removeFlags F).flags ↔ c ∈ m.flags) ∧
    ((m.addFlags F).flags).Sorted (fun a b : Char => a ≤ b) ∧
    ((m.addFlags F).flags).Nodup ∧
    (((m.addFlags F).removeFlags F).flags).Sorted (fun a b : Char => a ≤ b) ∧
    (((m.addFlags F).removeFlags F).flags).Nodup := by
  have hA : (m.addFlags F).flags = sortedUnique (F ++ m.flags) :=
    addFlags_flags m F
  have hmem : ∀ c, c ∈ ((m.addFlags F).removeFlags F).flags ↔
      c ∈ m.flags ∧ c ∉ F := by
    intro c
    rw [removeFlags_flags, mem_sortedUnique, List.mem_filter, hA,
      mem_sortedUnique, List.mem_append]
    simp only [decide_eq_true_eq]
    constructor
    · rintro ⟨hc | hc, hnf⟩
      · exact absurd hc hnf
      · exact ⟨hc, hnf⟩
    · rintro ⟨hc, hnf⟩
      exact ⟨Or.inr hc, hnf⟩
  refine ⟨?_, hmem, ?_, ?_, ?_, ?_, ?_⟩
  · show ((m.addFlags F).flagsSet
      (sortedUnique (F ++ (m.addFlags F).flags))).info = (m.addFlags F).info
    rw [hA]
    have hcongr : sortedUnique (F ++ sortedUnique (F ++ m.flags)) =
        sortedUnique (F ++ m.flags) := by
      apply sortedUnique_congr
      intro c
      simp only [List.mem_append, mem_sortedUnique]
      tauto
    unfold PyMsg.flagsSet PyMsg.addFlags PyMsg.flagsSet
    simp [hcongr]
  · intro hdisj c
    refine (hmem c).trans ⟨fun h => h.1, fun hc => ⟨hc, fun hf => ?_⟩⟩
    exact hdisj c hf hc
  · rw [hA]; exact sortedUnique_sorted _
  · rw [hA]; exact sortedUnique_nodup _
  · rw [removeFlags_flags]; exact sortedUnique_sorted _
  · rw [removeFlags_flags]; exact sortedUnique_nodup _

/-- Witness for C4 at a concrete record and flag string: the record carries
flag `S` and the added set `F`, being disjoint from it, also exercises the
conditional restore clause. -/
theorem C4_flag_set_algebra_witness :
    ((mC4.addFlags (s2c "F")).addFlags (s2c "F")).info =
        (mC4.addFlags (s2c "F")).info ∧
    (∀ c, c ∈ ((mC4.addFlags (s2c "F")).removeFlags (s2c "F")).flags ↔
      c ∈ mC4.flags ∧ c ∉ s2c "F") ∧
    ((∀ c ∈ s2c "F", c ∉ mC4.flags) →
      ∀ c, c ∈ ((mC4.addFlags (s2c "F")).removeFlags (s2c "F")).flags ↔
        c ∈ mC4.flags) ∧
    ((mC4.addFlags (s2c "F")).flags).Sorted (fun a b : Char => a ≤ b) ∧
    ((mC4.addFlags (s2c "F")).flags).Nodup ∧
    (((mC4.addFlags (s2c "F")).removeFlags (s2c "F")).flags).Sorted
      (fun a b : Char => a ≤ b) ∧
    (((mC4.addFlags (s2c "F")).removeFlags (s2c "F")).flags).Nodup :=
  C4_flag_set_algebra mC4 (s2c "F")

/-- C7 counterexample: the virtual path `Work` contains neither `:` nor the
separator `.`, yet converting it to a filesystem path and back yields
`/Work`, not `Work` — the round trip re-roots the path. -/
theorem C7_counterexample :
    (vpathToPath st0 (s2c "Work")).map (pathToVpath st0) ≠
      some (s2c "Work") := by
  decide

/-- C7 (amended): in Maildir++ layout (separator `.`), every virtual path
that begins with `/` and contains neither `:` nor the separator character
round-trips: `pathToVirtual(virtualToPath(V)) = V`. -/
theorem C7_vpath_roundtrip (st : MaildirState) (V : Chars)
    (hfs : st.fsLayout = false) (hsep : st.folderSep = '.')
    (hhead : V.headD ' ' = '/') (hcolon : ':' ∉ V) (hdot : '.' ∉ V) :
    (vpathToPath st V).map (pathToVpath st) = some V := by
  match V, hhead with
  | c :: rest, hhead =>
    have hc : c = '/' := by simpa using hhead
    subst hc
    simp only [List.mem_cons, not_or] at hcolon hdot
    have hcr : ':' ∉ rest := hcolon.2
    have hdr : '.' ∉ rest := hdot.2
    have hval : vpathToPath st ('/' :: rest) =
        some ((match st.parent with | some pp => pp | none => st.path) ++
          ['.' :: rest.map (fun c => if c = '/' then '.' else c)]) := by
      unfold vpathToPath
      rw [hsep, hfs]
      simp only [List.map_cons, List.map_map]
      have hmaps : rest.map ((fun c => if c = ':' then '.' else c) ∘
          (fun c => if c = '/' then '.' else c)) =
          rest.map (fun c => if c = '/' then '.' else c) := by
        apply List.map_congr_left
        intro x hx
        simp only [Function.comp]
        by_cases hx2 : x = '/'
        · simp [hx2]
        · have hx3 : ¬ x = ':' := fun he => hcr (he ▸ hx)
          simp [hx2, hx3]
      rw [hmaps]
      simp
    rw [hval]
    simp only [Option.map_some']
    unfold pathToVpath
    rw [List.getLast?_concat, hsep]
    simp only [Option.getD_some, List.map_cons, List.map_map]
    have hback : rest.map ((fun c => if c = '.' then '/' else c) ∘
        (fun c => if c = '/' then '.' else c)) = rest := by
      calc rest.map ((fun c => if c = '.' then '/' else c) ∘
            (fun c => if c = '/' then '.' else c)) = rest.map id := by
            apply List.map_congr_left
            intro x hx
            simp only [Function.comp, id]
            by_cases hx2 : x = '/'
            · simp [hx2]
            · have hx3 : ¬ x = '.' := fun he => hdr (he ▸ hx)
              simp [hx2, hx3]
        _ = rest := List.map_id rest
    rw [hback]
    simp

/-- Witness for C7 at the concrete virtual path `/Work/Archive` on the
default Maildir++ store. -/
theorem C7_vpath_roundtrip_witness :
    st0.fsLayout = false ∧ st0.folderSep = '.' ∧
    (s2c "/Work/Archive").headD ' ' = '/' ∧ ':' ∉ s2c "/Work/Archive" ∧
    '.' ∉ s2c "/Work/Archive" ∧
    (vpathToPath st0 (s2c "/Work/Archive")).map (pathToVpath st0) =
      some (s2c "/Work/Archive") :=
  ⟨rfl, rfl, by decide, by decide, by decide,
    C7_vpath_roundtrip st0 (s2c "/Work/Archive") rfl rfl (by decide)
      (by decide) (by decide)⟩

/-- C10: `get_folder` with vpath `None`, the empty string or `/` returns the
very store it was called on, successfully, and independently of the state of
the filesystem (no filesystem access can influence the result). -/
theorem C10_get_folder_identity (fuel : Nat) (st : MaildirState)
    (w w2 : World) (hx : Bool) (v : Option Chars)
    (hv : v = none ∨ v = some [] ∨ v = some ['/']) :
    getFolder fuel st w v hx = .ok st ∧
    getFolder fuel st w v hx = getFolder fuel st w2 v hx := by
  rcases hv with hv | hv | hv <;> subst hv <;>
    simp [getFolder]

/-- Witness for C10 at the vpath `None` on the concrete store `st0`. -/
theorem C10_get_folder_identity_witness :
    getFolder 3 st0 w0 none true = .ok st0 ∧
    getFolder 3 st0 w0 none true =
      getFolder 3 st0 { w0 with files := [] } none true :=
  C10_get_folder_identity 3 st0 w0 { w0 with files := [] } true none
    (Or.inl rfl)

/-! Facts about `__init__`: the discarded xattr capability (C9) and the
open-time validation (C6). -/

/-- C9 (code bug): opening a store with `xattr=True` on a host where pyxattr
support is available still leaves the instance's attribute-cache capability
disabled — `__init__` lines 89-91 assign the detected capability to a local
variable `_use_xattrs` instead of `self._use_xattrs`, so every store this
constructor returns has the capability off, contradicting the claimed
enablement at open time. -/
theorem C9_xattr_capability_never_enabled (fuel : Nat) (w : World) (p : Path)
    (create lazy fsLayout : Bool) (st : MaildirState) (w2 : World)
    (h : maildirInit fuel w p create lazy true fsLayout true = .ok (st, w2)) :
    st.useXattrs = false := by
  cases fuel with
  | zero => exact absurd h (by simp [maildirInit])
  | succ f =>
    simp only [maildirInit] at h
    split at h
    · exact absurd h (by simp)
    · split at h
      · exact absurd h (by simp)
      · simp only [Except.ok.injEq, Prod.mk.injEq] at h
        rw [← h.1]

/-- Witness for C9: a concrete successful `Maildir(path, xattr=True)` on a
host with xattr support still has the capability disabled. -/
theorem C9_xattr_capability_never_enabled_witness : st0.useXattrs = false :=
  C9_xattr_capability_never_enabled 3 w0 [s2c "m"] false false false st0 w0
    rfl

theorem initValidate_cases (w : World) (p : Path) (c : Bool) :
    initValidate w p c = .ok () ∨
    initValidate w p c = .error .invalidMaildir := by
  unfold initValidate
  by_cases h1 : existsW w p <;> by_cases h2 : isdirW w p <;>
    by_cases h3 : isdirW w (p ++ [s2c "cur"]) <;> by_cases h4 : c <;>
    simp [h1, h2, h3, h4]

theorem initValidate_false_ok (w : World) (p : Path) :
    initValidate w p false = .ok () ↔
      (existsW w p = true ∧ isdirW w p = true ∧
        isdirW w (p ++ [s2c "cur"]) = true) := by
  unfold initValidate
  by_cases h1 : existsW w p <;> by_cases h2 : isdirW w p <;>
    by_cases h3 : isdirW w (p ++ [s2c "cur"]) <;>
    simp [h1, h2, h3]

/-- One unfolding step of `maildirInit` with `create=False` when validation
passed: only the parent walk remains. -/
theorem maildirInit_succ_reduce (fuel : Nat) (w : World) (p : Path)
    (lazy x fsl hx : Bool) (hv : initValidate w p false = .ok ()) :
    maildirInit (fuel + 1) w p false lazy x fsl hx =
      (match maildirInit fuel w p.dropLast false false false fsl hx with
       | .error .recursionError => .error .recursionError
       | pres =>
         .ok ({ path := p, keys := [], lastUpdate := 0, lazy := lazy,
                lazyPeriod := 5, useXattrs := false, fsLayout := fsl,
                folderSep := if fsl = true then '/' else '.',
                parent := match pres with
                  | .ok (ps, _) => some ps.path
                  | .error _ => none }, w)) := by
  simp [maildirInit, hv]

theorem maildirInit_succ_invalid (fuel : Nat) (w : World) (p : Path)
    (lazy x fsl hx : Bool)
    (hv : initValidate w p false = .error .invalidMaildir) :
    maildirInit (fuel + 1) w p false lazy x fsl hx =
      .error .invalidMaildir := by
  simp [maildirInit, hv]

/-- With a filesystem whose root is not itself a maildir, the recursive
parent walk of `__init__` always bottoms out before the fuel bound, so the
modelled `RecursionError` cannot occur. -/
theorem maildirInit_ne_recursion (w : World) (fsLayout hasXattr : Bool)
    (hroot : ¬ (isdirW w [] = true ∧ isdirW w [s2c "cur"] = true)) :
    ∀ n p, p.length ≤ n → ∀ fuel, p.length + 1 ≤ fuel → ∀ lazy xattrArg,
      maildirInit fuel w p false lazy xattrArg fsLayout hasXattr ≠
        .error .recursionError := by
  intro n
  induction n with
  | zero =>
    intro p hp fuel hf lazy x h
    have hp0 : p = [] := List.length_eq_zero.mp (Nat.le_zero.mp hp)
    subst hp0
    match fuel, hf with
    | f + 1, _ =>
      rcases initValidate_cases w [] false with hv | hv
      · have hc := (initValidate_false_ok w []).mp hv
        exact hroot ⟨hc.2.1, by simpa using hc.2.2⟩
      · rw [maildirInit_succ_invalid f w [] lazy x fsLayout hasXattr hv] at h
        simp at h
  | succ k ih =>
    intro p hp fuel hf lazy x h
    match fuel, hf with
    | f + 1, hf =>
      rcases initValidate_cases w p false with hv | hv
      · by_cases hpnil : p = []
        · subst hpnil
          have hc := (initValidate_false_ok w []).mp hv
          exact hroot ⟨hc.2.1, by simpa using hc.2.2⟩
        · have hlen1 : p.dropLast.length = p.length - 1 := by
            simp [List.length_dropLast]
          have h2 : 1 ≤ p.length :=
            Nat.one_le_iff_ne_zero.mpr
              (fun h0 => hpnil (List.length_eq_zero.mp h0))
          have hrec := ih p.dropLast (by omega) f (by omega) false false
          rw [maildirInit_succ_reduce f w p lazy x fsLayout hasXattr hv] at h
          cases hm : maildirInit f w p.dropLast false false false fsLayout
              hasXattr with
          | error e =>
            cases e with
            | recursionError => exact hrec hm
            | invalidMaildir => rw [hm] at h; simp at h
          | ok pr => rw [hm] at h; simp at h
      · rw [maildirInit_succ_invalid f w p lazy x fsLayout hasXattr hv] at h
        simp at h

/-- C6: with `create=False` (and a filesystem whose root is not itself a
maildir — in Python such a root would instead crash the recursive parent
walk), opening a store succeeds exactly when the path exists, is a
directory, and contains a `cur` subdirectory, and otherwise fails with
`InvalidMaildirError`. -/
theorem C6_open_validation (w : World) (p : Path)
    (lazy xattrArg fsLayout hasXattr : Bool)
    (hroot : ¬ (isdirW w [] = true ∧ isdirW w [s2c "cur"] = true)) :
    ((∃ r, maildirInit (p.length + 2) w p false lazy xattrArg fsLayout
        hasXattr = .ok r) ↔
      (existsW w p = true ∧ isdirW w p = true ∧
        isdirW w (p ++ [s2c "cur"]) = true)) ∧
    ((maildirInit (p.length + 2) w p false lazy xattrArg fsLayout hasXattr =
        .error .invalidMaildir) ↔
      ¬ (existsW w p = true ∧ isdirW w p = true ∧
        isdirW w (p ++ [s2c "cur"]) = true)) := by
  have hsplit : p.length + 2 = p.length + 1 + 1 := rfl
  rcases initValidate_cases w p false with hv | hv
  · have hc := (initValidate_false_ok w p).mp hv
    have hdl := List.length_dropLast p
    have hrec := maildirInit_ne_recursion w fsLayout hasXattr hroot
      p.dropLast.length p.dropLast (le_refl _) (p.length + 1) (by omega)
      false false
    have hok : ∃ r, maildirInit (p.length + 2) w p false lazy xattrArg
        fsLayout hasXattr = .ok r := by
      rw [hsplit,
        maildirInit_succ_reduce (p.length + 1) w p lazy xattrArg fsLayout
          hasXattr hv]
      cases hm : maildirInit (p.length + 1) w p.dropLast false false false
          fsLayout hasXattr with
      | error e =>
        cases e with
        | recursionError => exact absurd hm hrec
        | invalidMaildir => exact ⟨_, rfl⟩
      | ok pr => exact ⟨_, rfl⟩
    obtain ⟨r, hr⟩ := hok
    constructor
    · exact ⟨fun _ => hc, fun _ => ⟨r, hr⟩⟩
    · constructor
      · intro he
        rw [hr] at he
        exact absurd he (by simp)
      · intro hn
        exact absurd hc hn
  · have hc : ¬ (existsW w p = true ∧ isdirW w p = true ∧
        isdirW w (p ++ [s2c "cur"]) = true) := by
      intro hcc
      rw [← initValidate_false_ok w p, hv] at hcc
      exact absurd hcc (by simp)
    have herr : maildirInit (p.length + 2) w p false lazy xattrArg fsLayout
        hasXattr = .error .invalidMaildir := by
      rw [hsplit]
      exact maildirInit_succ_invalid (p.length + 1) w p lazy xattrArg
        fsLayout hasXattr hv
    constructor
    · constructor
      · rintro ⟨r, hr⟩
        rw [herr] at hr
        exact absurd hr (by simp)
      · intro hcc
        exact absurd hcc hc
    · exact ⟨fun _ => hc, fun _ => herr⟩

/-- Witness for C6 on a concrete world: the maildir at `/m` opens, and the
iff characterizes the failure set. -/
theorem C6_open_validation_witness :
    (¬ (isdirW w0 [] = true ∧ isdirW w0 [s2c "cur"] = true)) ∧
    (((∃ r, maildirInit ([s2c "m"].length + 2) w0 [s2c "m"] false false false
        false true = .ok r) ↔
      (existsW w0 [s2c "m"] = true ∧ isdirW w0 [s2c "m"] = true ∧
        isdirW w0 ([s2c "m"] ++ [s2c "cur"]) = true)) ∧
    ((maildirInit ([s2c "m"].length + 2) w0 [s2c "m"] false false false false
        true = .error .invalidMaildir) ↔
      ¬ (existsW w0 [s2c "m"] = true ∧ isdirW w0 [s2c "m"] = true ∧
        isdirW w0 ([s2c "m"] ++ [s2c "cur"]) = true))) :=
  ⟨by decide, C6_open_validation w0 [s2c "m"] false false false true
    (by decide)⟩

theorem staleAny_spec (st : MaildirState) (w : World) (ds : List Path)
    (h : ∀ d ∈ ds, (getmtimeW w d).isSome) :
    (staleAny st w ds = some true ∨ staleAny st w ds = some false) ∧
    (staleAny st w ds = some true ↔
      ∃ d ∈ ds, ∃ t, getmtimeW w d = some t ∧ st.lastUpdate + 2 < t) := by
  induction ds with
  | nil =>
    constructor
    · right; rfl
    · simp [staleAny]
  | cons d ds ih =>
    have hd := h d (List.mem_cons_self d ds)
    have ihs := ih (fun d2 hd2 => h d2 (List.mem_cons_of_mem _ hd2))
    match hg : getmtimeW w d with
    | none => rw [hg] at hd; simp at hd
    | some t =>
      by_cases hlt : st.lastUpdate + 2 < t
      · constructor
        · left; simp [staleAny, hg, hlt]
        · constructor
          · intro _; exact ⟨d, List.mem_cons_self d ds, t, hg, hlt⟩
          · intro _; simp [staleAny, hg, hlt]
      · have hstep : staleAny st w (d :: ds) = staleAny st w ds := by
          simp [staleAny, hg, hlt]
        rw [hstep]
        refine ⟨ihs.1, ?_⟩
        rw [ihs.2]
        constructor
        · rintro ⟨d2, hd2, t2, hg2, hlt2⟩
          exact ⟨d2, List.mem_cons_of_mem _ hd2, t2, hg2, hlt2⟩
        · rintro ⟨d2, hd2, t2, hg2, hlt2⟩
          rcases List.mem_cons.mp hd2 with rfl | hd2m
          · rw [hg] at hg2
            injection hg2 with ht
            subst ht
            exact absurd hlt2 hlt
          · exact ⟨d2, hd2m, t2, hg2, hlt2⟩

/-- C5 counterexample: the mapping of `stL` was populated, a `remove` empties
it, and the next `keys()` call refreshes even though lazy mode is on and the
lazy period has not elapsed: the code tests whether the mapping is empty, not
whether it has never been populated, so the claimed lazy skip does not
happen — the mapping is rebuilt from disk (picking up `f`) and `lastRefresh`
is bumped to the current time. -/
theorem C5_counterexample :
    stL.keys ≠ [] ∧ stL.lazy = true ∧
    wL.now < stL.lastUpdate + stL.lazyPeriod ∧
    ((removeOp stL wL (s2c "k")).bind (fun r => keysOp r.1 r.2)).map
      (fun r => (r.1, r.2.keys, r.2.lastUpdate)) =
      some ([s2c "f"], [(s2c "f", [s2c "m", s2c "new", s2c "f"])], 100) := by
  exact ⟨by decide, by decide, by decide, by decide⟩

/-- C5 (amended): `keys()` refreshes unconditionally whenever the key map is
empty (the code tests emptiness, not whether the map was ever populated);
otherwise, in lazy mode within the lazy period no refresh happens; otherwise
a full rescan of the three subdirectories replaces the mapping wholesale if
and only if some subdirectory mtime exceeds `lastRefresh` plus the
two-second grace. -/
theorem C5_keys_refresh (st : MaildirState) (w : World)
    (hdirs : ∀ d ∈ subdirPaths st, (getmtimeW w d).isSome) :
    (st.keys = [] →
      keysOp st w = some ((rescanState st w).keys.map Prod.fst,
        rescanState st w)) ∧
    (st.keys ≠ [] → st.lazy = true → w.now < st.lastUpdate + st.lazyPeriod →
      keysOp st w = some (st.keys.map Prod.fst, st)) ∧
    (st.keys ≠ [] →
      ¬ (st.lazy = true ∧ w.now < st.lastUpdate + st.lazyPeriod) →
      ((∃ d ∈ subdirPaths st, ∃ t, getmtimeW w d = some t ∧
          st.lastUpdate + 2 < t) →
        keysOp st w = some ((rescanState st w).keys.map Prod.fst,
          rescanState st w)) ∧
      (¬ (∃ d ∈ subdirPaths st, ∃ t, getmtimeW w d = some t ∧
          st.lastUpdate + 2 < t) →
        keysOp st w = some (st.keys.map Prod.fst, st))) ∧
    (∀ ks2, rescanState { st with keys := ks2 } w = rescanState st w) := by
  refine ⟨?_, ?_, ?_, fun ks2 => rfl⟩
  · intro hk
    simp [keysOp, refreshMsgs, hk]
  · intro hk hlz hlt
    simp [keysOp, refreshMsgs, hk, hlz, hlt]
  · intro hk hnl
    have hs := staleAny_spec st w (subdirPaths st) hdirs
    constructor
    · intro hex
      have htrue : staleAny st w (subdirPaths st) = some true := hs.2.mpr hex
      simp [keysOp, refreshMsgs, hk, hnl, htrue]
    · intro hnex
      have hfalse : staleAny st w (subdirPaths st) = some false := by
        rcases hs.1 with h1 | h1
        · exact absurd (hs.2.mp h1) hnex
        · exact h1
      simp [keysOp, refreshMsgs, hk, hnl, hfalse]

/-- Witness for C5 at the concrete lazy store `stL` in the world `wL` (all
three subdirectories have readable mtimes there). -/
theorem C5_keys_refresh_witness :
    (∀ d ∈ subdirPaths stL, (getmtimeW wL d).isSome) ∧
    ((stL.keys = [] →
      keysOp stL wL = some ((rescanState stL wL).keys.map Prod.fst,
        rescanState stL wL)) ∧
    (stL.keys ≠ [] → stL.lazy = true →
      wL.now < stL.lastUpdate + stL.lazyPeriod →
      keysOp stL wL = some (stL.keys.map Prod.fst, stL)) ∧
    (stL.keys ≠ [] →
      ¬ (stL.lazy = true ∧ wL.now < stL.lastUpdate + stL.lazyPeriod) →
      ((∃ d ∈ subdirPaths stL, ∃ t, getmtimeW wL d = some t ∧
          stL.lastUpdate + 2 < t) →
        keysOp stL wL = some ((rescanState stL wL).keys.map Prod.fst,
          rescanState stL wL)) ∧
      (¬ (∃ d ∈ subdirPaths stL, ∃ t, getmtimeW wL d = some t ∧
          stL.lastUpdate + 2 < t) →
        keysOp stL wL = some (stL.keys.map Prod.fst, stL))) ∧
    (∀ ks2, rescanState { stL with keys := ks2 } wL = rescanState stL wL)) :=
  ⟨by decide, C5_keys_refresh stL wL (by decide)⟩

/-- C8 counterexample: on a store with no qualifying descendant directory at
all, `list_folders` still returns a one-element list — the store's own
virtual name `/` — while the claim requires exactly the (empty) set of
validating descendants and nothing else. -/
theorem C8_counterexample :
    listFolders st0 w0 = [s2c "/"] ∧
    (∀ ent ∈ scandirW w0 (anchorPath st0),
      ¬ isdirW w0 (ent.2.1 ++ [s2c "cur"]) = true) := by
  exact ⟨by decide, by decide⟩

/-- C8 (amended): a virtual path is returned by `list_folders` exactly when
it is the store's own name, or it is the vpath of a scanned entry of the
anchor directory that passes the folder-root prefix test, is a directory,
and itself contains a `cur` subdirectory. -/
theorem C8_list_folders_membership (st : MaildirState) (w : World)
    (v : Chars) :
    v ∈ listFolders st w ↔
      (v = storeName st ∨
       ∃ ent ∈ scandirW w (anchorPath st),
         ((folderRootStr st).isPrefixOf (pathStr ent.2.1) ∧
          ent.2.2 = false ∧ isdirW w (ent.2.1 ++ [s2c "cur"])) ∧
         v = pathToVpath st ent.2.1) := by
  unfold listFolders
  simp only [List.mem_cons, List.mem_filterMap]
  apply or_congr Iff.rfl
  constructor
  · rintro ⟨ent, hmem, hf⟩
    by_cases hcond : (folderRootStr st).isPrefixOf (pathStr ent.2.1) ∧
        ent.2.2 = false ∧ isdirW w (ent.2.1 ++ [s2c "cur"])
    · rw [if_pos hcond] at hf
      injection hf with hf2
      exact ⟨ent, hmem, hcond, hf2.symm⟩
    · rw [if_neg hcond] at hf
      exact absurd hf (by simp)
  · rintro ⟨ent, hmem, hcond, rfl⟩
    exact ⟨ent, hmem, by rw [if_pos hcond]⟩

theorem natToDec_ne_nil (n : Nat) : natToDec n ≠ [] := by
  unfold natToDec
  by_cases hn : n = 0
  · simp [hn]
  · simp only [hn, if_false]
    match hf : n with
    | 0 => exact absurd rfl hn
    | m + 1 => simp [natToDecAux, hn]

/-- The msgid getter of a record whose digest field is already populated:
nothing is recomputed and the record is unchanged. -/
theorem msgidGet_of_truthy (m : PyMsg) (h : truthyOS m.msg_md5 = true) :
    m.msgidGet = (m.msg_id ++ s2c ",MD5=" ++ fmtOptStr m.msg_md5 ++
      (if m.msg_size.truthy then s2c ",S=" ++ m.msg_size.fmt else []) ++
      (if m.msg_vsize.truthy then s2c ",W=" ++ m.msg_vsize.fmt else []),
      m) := by
  unfold PyMsg.msgidGet
  simp [h]

/-- The msgid getter of a record with no cached digest and nonempty content:
the digest is computed, cached, and serialized. -/
theorem msgidGet_seed_pos (m : PyMsg) (hmd5 : m.msg_md5 = none)
    (hc : m.content ≠ []) :
    m.msgidGet = (m.msg_id ++ s2c ",MD5=" ++ md5Hex m.content ++
      (if m.msg_size.truthy then s2c ",S=" ++ m.msg_size.fmt else []) ++
      (if m.msg_vsize.truthy then s2c ",W=" ++ m.msg_vsize.fmt else []),
      { m with msg_md5 := some (md5Hex m.content) }) := by
  unfold PyMsg.msgidGet PyMsg.contentHash
  simp [hmd5, truthyOS, hc, fmtOptStr]

/-- The msgid getter of a record with no cached digest and empty content:
the digest stays absent and serializes as the string `None`. -/
theorem msgidGet_seed_empty (m : PyMsg) (hmd5 : m.msg_md5 = none)
    (hc : m.content = []) :
    m.msgidGet = (m.msg_id ++ s2c ",MD5=" ++ s2c "None" ++
      (if m.msg_size.truthy then s2c ",S=" ++ m.msg_size.fmt else []) ++
      (if m.msg_vsize.truthy then s2c ",W=" ++ m.msg_vsize.fmt else []),
      m) := by
  unfold PyMsg.msgidGet PyMsg.contentHash
  cases m
  simp_all [truthyOS, fmtOptStr]

/-- The record `Maildir.add` builds before the id loop, for a generated id
without commas. -/
theorem mkMessage_addSeed (C : List Nat) (gid : Chars) (t : ℤ)
    (hg : ',' ∉ gid) :
    mkMessage C none (some (s2c "tmp")) none gid none t =
      { content := C, pdate := none, subdir := s2c "tmp", msg_id := gid,
        msg_md5 := none, msg_size := .pnat C.length, msg_vsize := .pnat 0,
        info := none, mtime := t } := by
  unfold mkMessage PyMsg.msgidSet
  rw [splitOnC_of_not_mem hg]
  by_cases ht : t = 0 <;>
    simp [truthyOS, ht, PyScalar.truthy, s2c]

/-- Parsing a serialized msgid of the form `gid,MD5=H,S=S` back through
`Message.__init__` recovers the id and the two properties. -/
theorem mkMessage_parse2 (C2 : List Nat) (sd : Chars) (hsd : sd ≠ [])
    (inf : Option Chars) (g : Chars) (t : ℤ) (gid H S : Chars)
    (hg : ',' ∉ gid) (hH1 : ',' ∉ H) (hH2 : '=' ∉ H)
    (hS1 : ',' ∉ S) (hS2 : '=' ∉ S) (hSne : S ≠ []) :
    mkMessage C2 none (some sd)
        (some (gid ++ s2c ",MD5=" ++ H ++ s2c ",S=" ++ S)) g inf t =
      { content := C2, pdate := none, subdir := sd, msg_id := gid,
        msg_md5 := some H, msg_size := .pstr S, msg_vsize := .pnat 0,
        info := if truthyOS inf = true then inf else none, mtime := t } := by
  have hA : s2c ",MD5=" = ',' :: s2c "MD5=" := rfl
  have hB : s2c ",S=" = ',' :: s2c "S=" := rfl
  have hassoc : gid ++ s2c ",MD5=" ++ H ++ s2c ",S=" ++ S =
      gid ++ ',' :: (s2c "MD5=" ++ H ++ ',' :: (s2c "S=" ++ S)) := by
    rw [hA, hB]
    simp only [List.append_assoc, List.cons_append]
  have hnm1 : ',' ∉ s2c "MD5=" ++ H := by
    simp only [List.mem_append, not_or]
    exact ⟨by decide, hH1⟩
  have hnm2 : ',' ∉ s2c "S=" ++ S := by
    simp only [List.mem_append, not_or]
    exact ⟨by decide, hS1⟩
  have hsplit : splitOnC ',' (gid ++ s2c ",MD5=" ++ H ++ s2c ",S=" ++ S) =
      [gid, s2c "MD5=" ++ H, s2c "S=" ++ S] := by
    rw [hassoc, splitOnC_append hg]
    rw [show s2c "MD5=" ++ H ++ ',' :: (s2c "S=" ++ S) =
        (s2c "MD5=" ++ H) ++ ',' :: (s2c "S=" ++ S) from by
      simp only [List.append_assoc]]
    rw [splitOnC_append hnm1, splitOnC_of_not_mem hnm2]
  have hsp1 : splitOnC '=' (s2c "MD5=" ++ H) = [s2c "MD5", H] := by
    rw [show s2c "MD5=" ++ H = s2c "MD5" ++ '=' :: H from rfl,
      splitOnC_append (by decide), splitOnC_of_not_mem hH2]
  have hsp2 : splitOnC '=' (s2c "S=" ++ S) = [s2c "S", S] := by
    rw [show s2c "S=" ++ S = s2c "S" ++ '=' :: S from rfl,
      splitOnC_append (by decide), splitOnC_of_not_mem hS2]
  have hkne : gid ++ s2c ",MD5=" ++ H ++ s2c ",S=" ++ S ≠ [] := by
    rw [hassoc]
    simp
  have hsplitR : splitOnC ','
      (gid ++ (s2c ",MD5=" ++ (H ++ (s2c ",S=" ++ S)))) =
      [gid, s2c "MD5=" ++ H, s2c "S=" ++ S] := by
    rw [← hsplit]
    simp only [List.append_assoc]
  have hkneR : gid ++ (s2c ",MD5=" ++ (H ++ (s2c ",S=" ++ S))) ≠ [] := by
    rw [show gid ++ (s2c ",MD5=" ++ (H ++ (s2c ",S=" ++ S))) =
      gid ++ s2c ",MD5=" ++ H ++ s2c ",S=" ++ S from by
        simp only [List.append_assoc]]
    exact hkne
  unfold mkMessage PyMsg.msgidSet
  have hne1 : ¬ (s2c "S" = s2c "MD5") := by decide
  rcases inf with _ | i
  · by_cases ht : t = 0 <;>
      simp [hsplitR, hsplit, hsp1, hsp2, truthyOS, PyScalar.truthy, hsd,
        hkne, hkneR, hne1, hSne, ht]
  · by_cases hi : i = [] <;> by_cases ht : t = 0 <;>
      simp [hsplitR, hsplit, hsp1, hsp2, truthyOS, PyScalar.truthy, hsd,
        hkne, hkneR, hne1, hSne, ht, hi]

/-- Parsing a serialized msgid of the form `gid,MD5=None` (empty content)
back through `Message.__init__`. -/
theorem mkMessage_parse1 (C2 : List Nat) (sd : Chars) (hsd : sd ≠ [])
    (inf : Option Chars) (g : Chars) (t : ℤ) (gid : Chars)
    (hg : ',' ∉ gid) :
    mkMessage C2 none (some sd) (some (gid ++ s2c ",MD5=None")) g inf t =
      { content := C2, pdate := none, subdir := sd, msg_id := gid,
        msg_md5 := some (s2c "None"),
        msg_size := .pnat C2.length, msg_vsize := .pnat 0,
        info := if truthyOS inf = true then inf else none, mtime := t } := by
  have hA : gid ++ s2c ",MD5=None" = gid ++ ',' :: s2c "MD5=None" := rfl
  have hnone : ',' ∉ s2c "MD5=None" := by decide
  have hsplit : splitOnC ',' (gid ++ s2c ",MD5=None") =
      [gid, s2c "MD5=None"] := by
    rw [hA, splitOnC_append hg, splitOnC_of_not_mem hnone]
  have hsp1 : splitOnC '=' (s2c "MD5=None") = [s2c "MD5", s2c "None"] := by
    decide
  have hkne : gid ++ s2c ",MD5=None" ≠ [] := by
    rw [hA]
    simp
  unfold mkMessage PyMsg.msgidSet
  rcases inf with _ | i
  · by_cases ht : t = 0 <;>
      simp [hsplit, hsp1, truthyOS, PyScalar.truthy, hsd, hkne, ht]
  · by_cases hi : i = [] <;> by_cases ht : t = 0 <;>
      simp [hsplit, hsp1, truthyOS, PyScalar.truthy, hsd, hkne, ht, hi]

/-- The msgid getter commutes with updating the `subdir` field, which it
never reads. -/
theorem msgidGet_subdir (m : PyMsg) (sd : Chars) :
    ({ m with subdir := sd } : PyMsg).msgidGet =
      ((m.msgidGet).1, { (m.msgidGet).2 with subdir := sd }) := by
  cases m with
  | mk content pdate subdir msg_id msg_md5 msg_size msg_vsize info mtime =>
    unfold PyMsg.msgidGet PyMsg.contentHash
    by_cases h : truthyOS msg_md5 = true
    · simp [h]
    · by_cases hc : content = [] <;> simp [h, hc]

/-- `_refresh_msgs` only replaces the key map and the refresh timestamp. -/
theorem refreshMsgs_fields (st : MaildirState) (w : World)
    (st2 : MaildirState) (h : refreshMsgs st w = some st2) :
    st2.path = st.path ∧ st2.lazy = st.lazy ∧
    st2.lazyPeriod = st.lazyPeriod ∧ st2.useXattrs = st.useXattrs ∧
    st2.fsLayout = st.fsLayout ∧ st2.folderSep = st.folderSep ∧
    st2.parent = st.parent := by
  unfold refreshMsgs at h
  split at h
  · injection h with h2
    rw [← h2]
    exact ⟨rfl, rfl, rfl, rfl, rfl, rfl, rfl⟩
  · split at h
    · injection h with h2
      rw [← h2]
      exact ⟨rfl, rfl, rfl, rfl, rfl, rfl, rfl⟩
    · split at h
      · exact absurd h (by simp)
      · injection h with h2
        rw [← h2]
        exact ⟨rfl, rfl, rfl, rfl, rfl, rfl, rfl⟩
      · injection h with h2
        rw [← h2]
        exact ⟨rfl, rfl, rfl, rfl, rfl, rfl, rfl⟩

theorem keysOp_fields (st : MaildirState) (w : World) (ks : List Chars)
    (stR : MaildirState) (h : keysOp st w = some (ks, stR)) :
    stR.path = st.path ∧ stR.lazy = st.lazy ∧ stR.useXattrs = st.useXattrs := by
  unfold keysOp at h
  match hr : refreshMsgs st w with
  | none => rw [hr] at h; simp at h
  | some st2 =>
    rw [hr] at h
    simp only [Option.map_some'] at h
    injection h with h2
    have hf := refreshMsgs_fields st w st2 hr
    have : st2 = stR := congrArg Prod.snd h2
    rw [← this]
    exact ⟨hf.1, hf.2.1, hf.2.2.2.1⟩

theorem touchDir_fields (w : World) (p : Path) :
    (touchDir w p).files = w.files ∧ (touchDir w p).now = w.now ∧
    (touchDir w p).genIds = w.genIds ∧ (touchDir w p).genCtr = w.genCtr := by
  unfold touchDir
  split <;> exact ⟨rfl, rfl, rfl, rfl⟩

theorem fsWrite_spec (w : World) (p : Path) (c : List Nat) :
    (∃ ino, dget (fsWrite w p c).files p = some ⟨c, w.now, w.now, ino⟩) ∧
    (fsWrite w p c).now = w.now ∧ (fsWrite w p c).genIds = w.genIds ∧
    (fsWrite w p c).genCtr = w.genCtr := by
  unfold fsWrite
  match h : fsGet w p with
  | some f =>
    exact ⟨⟨f.ino, by simp [dget_dinsert]⟩, rfl, rfl, rfl⟩
  | none =>
    refine ⟨⟨w.nextIno, ?_⟩, ?_, ?_, ?_⟩
    · rw [(touchDir_fields _ _).1]
      simp [dget_dinsert]
    · rw [(touchDir_fields _ _).2.1]
    · rw [(touchDir_fields _ _).2.2.1]
    · rw [(touchDir_fields _ _).2.2.2]

theorem utimeW_spec (w : World) (p : Path) (t : ℤ) (fr : FileRec)
    (h : dget w.files p = some fr) :
    ∃ wU, utimeW w p t = some wU ∧
      wU.files = dinsert w.files p ⟨fr.content, t, w.now, fr.ino⟩ ∧
      wU.now = w.now ∧ wU.genIds = w.genIds ∧ wU.genCtr = w.genCtr := by
  unfold utimeW fsGet
  rw [h]
  exact ⟨_, rfl, rfl, rfl, rfl, rfl⟩

theorem statW_spec (w : World) (p : Path) (fr : FileRec)
    (h : dget w.files p = some fr) :
    statW w p = some ⟨fr.ino, fr.content.length, fr.mtime, fr.ctime⟩ := by
  unfold statW fsGet
  rw [h]
  rfl

theorem existsW_of_file (w : World) (p : Path) (fr : FileRec)
    (h : dget w.files p = some fr) : existsW w p = true := by
  unfold existsW fsGet
  rw [h]
  rfl

theorem renameW_spec (w : World) (src dst : Path) (fr : FileRec)
    (h : dget w.files src = some fr) :
    ∃ wR, renameW w src dst = some wR ∧
      dget wR.files dst = some { fr with ctime := w.now } ∧
      wR.now = w.now ∧ wR.genIds = w.genIds ∧ wR.genCtr = w.genCtr := by
  unfold renameW fsGet
  rw [h]
  refine ⟨_, rfl, ?_, ?_, ?_, ?_⟩
  · rw [(touchDir_fields _ _).1, (touchDir_fields _ _).1]
    simp [dget_dinsert]
  · rw [(touchDir_fields _ _).2.1, (touchDir_fields _ _).2.1]
  · rw [(touchDir_fields _ _).2.2.1, (touchDir_fields _ _).2.2.1]
  · rw [(touchDir_fields _ _).2.2.2, (touchDir_fields _ _).2.2.2]

theorem pathForKey_hit (st : MaildirState) (w : World) (key : Chars)
    (p : Path) (fr : FileRec) (hk : dget st.keys key = some p)
    (hf : dget w.files p = some fr) :
    pathForKey st w key = some (p, st) := by
  unfold pathForKey
  rw [hk]
  simp [existsW_of_file w p fr hf]

/-- Behaviour of `_write_message` on a record whose msgid getter and content
hash are already settled (no mutation): the bytes land at the canonical path
with the record's mtime, whatever the xattr capability does. -/
theorem writeMessage_spec (st : MaildirState) (w : World) (m : PyMsg)
    (mid : Chars) (hget : m.msgidGet = (mid, m))
    (hch : m.contentHash = (m.msg_md5, m)) :
    ∃ stW wW, writeMessage st w m = some (stW, wW, m) ∧
      stW.keys = st.keys ∧ stW.path = st.path ∧ stW.lazy = st.lazy ∧
      stW.lastUpdate = st.lastUpdate ∧
      wW.now = w.now ∧ wW.genIds = w.genIds ∧ wW.genCtr = w.genCtr ∧
      (∃ ino, dget wW.files (pathForMessage st m).1 =
        some ⟨m.content, m.mtime, w.now, ino⟩) := by
  have hpm : pathForMessage st m = ((pathForMessage st m).1, m) := by
    unfold pathForMessage
    rw [hget]
  obtain ⟨⟨ino, hfw⟩, hnow, hgi, hgc⟩ :=
    fsWrite_spec w (pathForMessage st m).1 m.content
  have hfinish : ∀ (st2 : MaildirState) (w2 : World),
      st2.keys = st.keys → st2.path = st.path → st2.lazy = st.lazy →
      st2.lastUpdate = st.lastUpdate →
      w2.files = (fsWrite w (pathForMessage st m).1 m.content).files →
      w2.now = w.now → w2.genIds = w.genIds → w2.genCtr = w.genCtr →
      ∃ stW wW,
        (utimeW w2 (pathForMessage st m).1 m.mtime).map
          (fun w3 => (st2, w3, m)) = some (stW, wW, m) ∧
        stW.keys = st.keys ∧ stW.path = st.path ∧ stW.lazy = st.lazy ∧
        stW.lastUpdate = st.lastUpdate ∧
        wW.now = w.now ∧ wW.genIds = w.genIds ∧ wW.genCtr = w.genCtr ∧
        (∃ ino2, dget wW.files (pathForMessage st m).1 =
          some ⟨m.content, m.mtime, w.now, ino2⟩) := by
    intro st2 w2 h1 h2 h3 h4 h5 h6 h7 h8
    obtain ⟨wU, huti, hufiles, hunow, hugi, hugc⟩ :=
      utimeW_spec w2 (pathForMessage st m).1 m.mtime
        ⟨m.content, w.now, w.now, ino⟩ (by rw [h5]; exact hfw)
    refine ⟨st2, wU, ?_, h1, h2, h3, h4, ?_, ?_, ?_, ⟨ino, ?_⟩⟩
    · rw [huti]
      rfl
    · rw [hunow, h6]
    · rw [hugi, h7]
    · rw [hugc, h8]
    · rw [hufiles]
      simp [dget_dinsert, h6]
  unfold writeMessage
  rw [hpm]
  by_cases hx : st.useXattrs
  · by_cases hmd : truthyOS m.msg_md5 = true
    · by_cases hok : (fsWrite w (pathForMessage st m).1 m.content).xattrOk = true
      · simp only [hx, if_true, hch, hmd, hok]
        exact hfinish st _ rfl rfl rfl rfl rfl hnow hgi hgc
      · simp only [hx, if_true, hch, hmd, hok, Bool.false_eq_true, if_false]
        exact hfinish _ _ rfl rfl rfl rfl rfl hnow hgi hgc
    · simp only [hx, if_true, hch, hmd, Bool.false_eq_true, if_false]
      exact hfinish st _ rfl rfl rfl rfl rfl hnow hgi hgc
  · simp only [hx, Bool.false_eq_true, if_false]
    exact hfinish st _ rfl rfl rfl rfl rfl hnow hgi hgc

/-- Behaviour of `_message_at_path` on an existing file whose decoded record
carries a digest (so the xattr block is skipped regardless of the
capability). -/
theorem messageAtPath_hit (st : MaildirState) (w : World) (base : Path)
    (sub fn : Chars) (fr : FileRec) (M : PyMsg)
    (hf : dget w.files (base ++ [sub, fn]) = some fr)
    (hmk : mkMessage fr.content none (some sub)
      (some ((splitOnC ':' fn).headD [])) (w.genIds w.genCtr)
      ((splitOnC ':' fn)[1]?) fr.mtime = M)
    (hmd5 : truthyOS M.msg_md5 = true) :
    messageAtPath st w (base ++ [sub, fn]) true = some (M, st, w) := by
  have hfget : fsGet w (base ++ [sub, fn]) = some fr := hf
  have hlast : (base ++ [sub, fn]).getLast? = some fn := by
    rw [show base ++ [sub, fn] = (base ++ [sub]) ++ [fn] from by simp]
    exact List.getLast?_concat _
  have hsublast : ((base ++ [sub, fn]).dropLast).getLast? = some sub := by
    rw [show base ++ [sub, fn] = (base ++ [sub]) ++ [fn] from by simp,
      List.dropLast_concat]
    exact List.getLast?_concat _
  unfold messageAtPath
  rw [hfget]
  rw [List.headD_eq_head?] at hmk
  simp only [Option.some_bind, hlast, hsublast, Option.getD_some, if_true]
  simp [hmk, hmd5]

/-- Behaviour of `Maildir.update` when the canonical filename changed, the
key resolves without a refresh, and the file was last written at the current
clock (so the stat comparison sees no change after the rename): a pure
rename. -/
theorem updateOp_rename (st : MaildirState) (w : World) (key mid : Chars)
    (m : PyMsg) (oldP newP : Path) (fr : FileRec)
    (hpk : dget st.keys key = some oldP)
    (hfr : dget w.files oldP = some fr)
    (hpm : pathForMessage st m = (newP, m))
    (hne1 : oldP ≠ []) (hne2 : oldP ≠ newP)
    (hctime : fr.ctime = w.now)
    (hget : m.msgidGet = (mid, m)) :
    ∃ stU wU, updateOp st w key m = some (mid, stU, wU, m) ∧
      stU.keys = dinsert st.keys key newP ∧ stU.path = st.path ∧
      stU.lazy = st.lazy ∧
      dget wU.files newP = some ⟨fr.content, fr.mtime, w.now, fr.ino⟩ ∧
      wU.now = w.now ∧ wU.genIds = w.genIds ∧ wU.genCtr = w.genCtr := by
  obtain ⟨wR, hren, hrget, hrnow, hrgi, hrgc⟩ :=
    renameW_spec w oldP newP fr hfr
  have hst2 := statW_spec wR newP ⟨fr.content, fr.mtime, w.now, fr.ino⟩ hrget
  simp [updateOp, pathForKey_hit st w key oldP fr hpk hfr,
    statW_spec w oldP fr hfr, hpm, hne1, hne2, hren, hst2, hget, hctime]
  exact ⟨_, wR, ⟨rfl, rfl⟩, rfl, rfl, rfl, hrget, hrnow, hrgi, hrgc⟩

theorem flags_of_none (m : PyMsg) (h : m.info = none) : m.flags = [] := by
  unfold PyMsg.flags
  rw [h]

/-- `_path_for_message` for a settled record outside `cur` with no flags:
the bare msgid is the filename. -/
theorem pathForMessage_plain (st : MaildirState) (m : PyMsg) (mid : Chars)
    (hget : m.msgidGet = (mid, m)) (hcond : ¬ m.subdir = s2c "cur")
    (hflags : m.flags = []) :
    pathForMessage st m = (st.path ++ [m.subdir, mid], m) := by
  unfold pathForMessage
  rw [hget]
  simp [hcond, hflags]

/-- `_path_for_message` for a settled record in `cur` with no recorded info:
the filename gains the `:2,` suffix. -/
theorem pathForMessage_cur (st : MaildirState) (m : PyMsg) (mid : Chars)
    (hget : m.msgidGet = (mid, m)) (hsub : m.subdir = s2c "cur")
    (hinfo : m.info = none) :
    pathForMessage st m =
      (st.path ++ [s2c "cur", mid ++ ':' :: s2c "2,"], m) := by
  unfold pathForMessage
  rw [hget]
  simp [hsub, hinfo, truthyOS]

theorem path_segments_ne (base : Path) (a b fa fb : Chars) (h : ¬ a = b) :
    ¬ (base ++ [a, fa] = base ++ [b, fb]) := by
  intro he
  have h2 := List.append_cancel_left he
  simp only [List.cons.injEq] at h2
  exact h h2.1

/-- Combined behaviour of `add` followed by two `get_message` calls on the
returned key, for any open store and world where the conditional refresh
succeeds, the generated id is fresh, and the staged / decoded records behave
as the serialization lemmas establish (the record parameters `m1`, `Mnew`,
`Mcur` are supplied by the two content-shape instantiations). -/
theorem add_get_trace (st : MaildirState) (w : World) (C : List Nat)
    (ks : List Chars) (stR : MaildirState) (k : Chars) (m1 Mnew Mcur : PyMsg)
    (hks : keysOp st { w with genCtr := w.genCtr + 1 } = some (ks, stR))
    (hseedget : (mkMessage C none (some (s2c "tmp")) none
      (w.genIds w.genCtr) none w.now).msgidGet = (k, m1))
    (hfresh : k ∉ ks)
    (hm1get : m1.msgidGet = (k, m1))
    (hm1ch : m1.contentHash = (m1.msg_md5, m1))
    (hm1sub : m1.subdir = s2c "tmp")
    (hm1info : m1.info = none)
    (hm1content : m1.content = C)
    (hm1mtime : m1.mtime = w.now)
    (hcolon : ':' ∉ k)
    (hMnew : ∀ g, mkMessage C none (some (s2c "new")) (some k) g none
      w.now = Mnew)
    (hMnewget : Mnew.msgidGet = (k, Mnew))
    (hMnewsub : Mnew.subdir = s2c "new")
    (hMnewinfo : Mnew.info = none)
    (hMnewmd5 : truthyOS Mnew.msg_md5 = true)
    (hMcur : ∀ g, mkMessage C none (some (s2c "cur")) (some k) g
      (some (s2c "2,")) w.now = Mcur)
    (hMcursub : Mcur.subdir = s2c "cur")
    (hMcurcontent : Mcur.content = C)
    (hMcurmd5 : truthyOS Mcur.msg_md5 = true) :
    ∃ stA wA mA,
      addOp st w C none none none none none 1 = some (k, stA, wA, mA) ∧
      mA.subdir = s2c "new" ∧
      ∃ stB wB,
        (∀ f, getMessage (f + 2) stA wA k true = some (Mcur, stB, wB)) ∧
        (∃ fl, dget wB.files
            (st.path ++ [s2c "cur", k ++ ':' :: s2c "2,"]) = some fl ∧
          fl.content = C) ∧
        (∀ f, getMessage (f + 1) stB wB k true = some (Mcur, stB, wB)) := by
  have hstRpath : stR.path = st.path :=
    (keysOp_fields st _ ks stR hks).1
  have hm1flags : m1.flags = [] := flags_of_none m1 hm1info
  have htmpcur : ¬ (s2c "tmp" = s2c "cur") := by decide
  have hnewcur : ¬ (s2c "new" = s2c "cur") := by decide
  -- the id re-roll loop exits at once
  have hloop : rerollLoop 1 (mkMessage C none (some (s2c "tmp")) none
      (w.genIds w.genCtr) none w.now) st { w with genCtr := w.genCtr + 1 } =
      some (m1, stR, { w with genCtr := w.genCtr + 1 }) := by
    rw [show (1 : Nat) = 0 + 1 from rfl]
    unfold rerollLoop
    rw [hks]
    simp [hseedget, hfresh]
  -- the write into tmp
  obtain ⟨stW, wW, hwrite, hWkeys, hWpath, hWlazy, hWlu, hWnow, hWgi, hWgc,
    ino, hWfile⟩ := writeMessage_spec stR { w with genCtr := w.genCtr + 1 }
      m1 k hm1get hm1ch
  have hpmR : pathForMessage stR m1 = (stR.path ++ [s2c "tmp", k], m1) := by
    rw [pathForMessage_plain stR m1 k hm1get (by rw [hm1sub]; exact htmpcur)
      hm1flags, hm1sub]
  rw [hpmR] at hWfile
  simp only [hm1content, hm1mtime] at hWfile
  -- hWfile : dget wW.files (stR.path ++ [s2c "tmp", k]) = some ⟨C, w.now, w.now, ino⟩
  have hpmW : pathForMessage stW m1 = (stR.path ++ [s2c "tmp", k], m1) := by
    rw [pathForMessage_plain stW m1 k hm1get (by rw [hm1sub]; exact htmpcur)
      hm1flags, hm1sub, hWpath]
  -- the message moved to new
  have hm4get : ({ m1 with subdir := s2c "new" } : PyMsg).msgidGet =
      (k, { m1 with subdir := s2c "new" }) := by
    rw [msgidGet_subdir, hm1get]
  have hm4flags : ({ m1 with subdir := s2c "new" } : PyMsg).flags = [] :=
    flags_of_none _ hm1info
  have hpm4 : pathForMessage stW { m1 with subdir := s2c "new" } =
      (stR.path ++ [s2c "new", k], { m1 with subdir := s2c "new" }) := by
    rw [pathForMessage_plain stW _ k hm4get hnewcur hm4flags, hWpath]
  -- the add-stage update: a clean rename from tmp to new
  have hst3keys : dget (dinsert stW.keys k (stR.path ++ [s2c "tmp", k])) k =
      some (stR.path ++ [s2c "tmp", k]) := dget_dinsert _ _ _
  obtain ⟨stU, wU, hupd, hUkeys, hUpath, hUlazy, hUfile, hUnow, hUgi,
    hUgc⟩ := updateOp_rename
      { stW with keys := dinsert stW.keys k (stR.path ++ [s2c "tmp", k]) }
      wW k k { m1 with subdir := s2c "new" }
      (stR.path ++ [s2c "tmp", k]) (stR.path ++ [s2c "new", k])
      ⟨C, w.now, w.now, ino⟩
      hst3keys hWfile
      (by rw [pathForMessage_plain _ _ k hm4get hnewcur hm4flags]
          simp [hWpath])
      (by simp)
      (path_segments_ne stR.path (s2c "tmp") (s2c "new") k k (by decide))
      (by rw [hWnow])
      hm4get
  -- assemble the whole add call
  have haddOp : addOp st w C none none none none none 1 =
      some (k, stU, wU, { m1 with subdir := s2c "new" }) := by
    unfold addOp
    simp [hloop, hwrite, hpmW, hm1get, hm1flags, hm4get, hupd, truthyOS]
  -- facts about the post-add state
  have hWnow2 : wW.now = w.now := hWnow
  have hUnow2 : wU.now = wW.now := hUnow
  have hUpath2 : stU.path = stR.path := by
    rw [hUpath]
    exact hWpath
  have hUkey : dget stU.keys k = some (stR.path ++ [s2c "new", k]) := by
    rw [hUkeys]
    exact dget_dinsert _ _ _
  have hUfile2 : dget wU.files (stR.path ++ [s2c "new", k]) =
      some ⟨C, w.now, w.now, ino⟩ := by
    rw [hUfile, hWnow2]
  -- decoding the delivered file yields the abstract record Mnew
  have hsplitk : splitOnC ':' k = [k] := splitOnC_of_not_mem hcolon
  have hmap1 : messageAtPath stU wU (stR.path ++ [s2c "new", k]) true =
      some (Mnew, stU, wU) := by
    apply messageAtPath_hit stU wU stR.path (s2c "new") k
      ⟨C, w.now, w.now, ino⟩ Mnew hUfile2 ?_ hMnewmd5
    rw [hsplitk]
    exact hMnew _
  -- the promotion rename from new to cur
  have hMp_get : ({ Mnew with subdir := s2c "cur" } : PyMsg).msgidGet =
      (k, { Mnew with subdir := s2c "cur" }) := by
    rw [msgidGet_subdir, hMnewget]
  have hMp_info : ({ Mnew with subdir := s2c "cur" } : PyMsg).info = none :=
    hMnewinfo
  obtain ⟨stV, wV, hupd2, hVkeys, hVpath, hVlazy, hVfile, hVnow, hVgi,
    hVgc⟩ := updateOp_rename stU wU k k { Mnew with subdir := s2c "cur" }
      (stR.path ++ [s2c "new", k])
      (stR.path ++ [s2c "cur", k ++ ':' :: s2c "2,"])
      ⟨C, w.now, w.now, ino⟩
      hUkey hUfile2
      (by rw [pathForMessage_cur stU _ k hMp_get rfl hMp_info, hUpath2])
      (by simp)
      (path_segments_ne stR.path (s2c "new") (s2c "cur") _ _ (by decide))
      (hUnow2.trans hWnow2).symm
      hMp_get
  have hVnow2 : wV.now = w.now := by
    rw [hVnow, hUnow2, hWnow2]
  have hVkey : dget stV.keys k =
      some (stR.path ++ [s2c "cur", k ++ ':' :: s2c "2,"]) := by
    rw [hVkeys]
    exact dget_dinsert _ _ _
  have hVfile2 : dget wV.files
      (stR.path ++ [s2c "cur", k ++ ':' :: s2c "2,"]) =
      some ⟨C, w.now, w.now, ino⟩ := by
    rw [hVfile, hUnow2, hWnow2]
  -- decoding the promoted file yields the abstract record Mcur
  have hsplitcur : splitOnC ':' (k ++ ':' :: s2c "2,") = [k, s2c "2,"] := by
    rw [splitOnC_append hcolon,
      splitOnC_of_not_mem (by decide : ':' ∉ s2c "2,")]
  have hmap2 : messageAtPath stV wV
      (stR.path ++ [s2c "cur", k ++ ':' :: s2c "2,"]) true =
      some (Mcur, stV, wV) := by
    apply messageAtPath_hit stV wV stR.path (s2c "cur")
      (k ++ ':' :: s2c "2,") ⟨C, w.now, w.now, ino⟩ Mcur hVfile2 ?_ hMcurmd5
    rw [hsplitcur]
    exact hMcur _
  -- the second fetch finds the record in cur and returns it directly
  have hget2 : ∀ f, getMessage (f + 1) stV wV k true =
      some (Mcur, stV, wV) := by
    intro f
    unfold getMessage
    rw [pathForKey_hit stV wV k _ _ hVkey hVfile2]
    simp [hmap2, hMcursub, (by decide : ¬ (s2c "cur" = s2c "new"))]
  -- the first fetch promotes and re-fetches
  have hget1 : ∀ f, getMessage (f + 2) stU wU k true =
      some (Mcur, stV, wV) := by
    intro f
    rw [show f + 2 = (f + 1) + 1 from rfl]
    unfold getMessage
    rw [pathForKey_hit stU wU k _ _ hUkey hUfile2]
    simp [hmap1, hMnewsub, hupd2, hMp_get, hget2 f]
  refine ⟨stU, wU, { m1 with subdir := s2c "new" }, haddOp, rfl, stV, wV,
    hget1, ?_, hget2⟩
  refine ⟨⟨C, w.now, w.now, ino⟩, ?_, rfl⟩
  rw [← hstRpath]
  exact hVfile2
theorem seedMsg_get (C : List Nat) (gid : Chars) (t : ℤ)
    (hg : ',' ∉ gid) :
    (mkMessage C none (some (s2c "tmp")) none gid none t).msgidGet =
      (seedKey C gid, seedMsg C gid t) := by
  rw [mkMessage_addSeed C gid t hg]
  by_cases hC : C = []
  · subst hC
    rw [msgidGet_seed_empty _ rfl rfl]
    simp [seedKey, seedMsg, PyScalar.truthy,
      (show s2c ",MD5=" ++ s2c "None" = s2c ",MD5=None" from rfl)]
  · have hlen : C.length ≠ 0 := by
      simpa [List.length_eq_zero] using hC
    rw [msgidGet_seed_pos _ rfl hC]
    simp [seedKey, seedMsg, PyScalar.truthy, PyScalar.fmt, hC, hlen,
      List.append_assoc]

theorem seedMsg_get_self (C : List Nat) (gid : Chars) (t : ℤ) :
    (seedMsg C gid t).msgidGet = (seedKey C gid, seedMsg C gid t) := by
  by_cases hC : C = []
  · subst hC
    rw [msgidGet_seed_empty _ rfl rfl]
    simp [seedKey, seedMsg, PyScalar.truthy,
      (show s2c ",MD5=" ++ s2c "None" = s2c ",MD5=None" from rfl)]
  · have hmd5t : truthyOS (seedMsg C gid t).msg_md5 = true := by
      simp [seedMsg, hC, truthyOS, md5Hex_ne_nil C]
    have hlen : C.length ≠ 0 := by
      simpa [List.length_eq_zero] using hC
    rw [msgidGet_of_truthy _ hmd5t]
    simp [seedKey, seedMsg, PyScalar.truthy, PyScalar.fmt, fmtOptStr, hC,
      hlen, List.append_assoc]

theorem seedMsg_contentHash (C : List Nat) (gid : Chars) (t : ℤ) :
    (seedMsg C gid t).contentHash =
      ((seedMsg C gid t).msg_md5, seedMsg C gid t) := by
  by_cases hC : C = [] <;>
    simp [seedMsg, PyMsg.contentHash, hC, truthyOS, md5Hex_ne_nil C]

theorem seedKey_colon (C : List Nat) (gid : Chars) (hg : ':' ∉ gid) :
    ':' ∉ seedKey C gid := by
  intro h
  by_cases hC : C = []
  · unfold seedKey at h
    rw [if_pos hC] at h
    rcases List.mem_append.1 h with h | h
    · exact hg h
    · exact absurd h (by decide)
  · unfold seedKey at h
    rw [if_neg hC] at h
    rcases List.mem_append.1 h with h | h
    · rcases List.mem_append.1 h with h | h
      · rcases List.mem_append.1 h with h | h
        · rcases List.mem_append.1 h with h | h
          · exact hg h
          · exact absurd h (by decide)
        · exact (md5Hex_plain C ':' h).2.1 rfl
      · exact absurd h (by decide)
    · exact (natToDec_plain _ ':' h).2.1 rfl

theorem seedKey_cons (C : List Nat) (gid : Chars) :
    ∃ s, seedKey C gid = gid ++ ',' :: s := by
  by_cases hC : C = []
  · refine ⟨s2c "MD5=None", ?_⟩
    unfold seedKey
    rw [if_pos hC]
    rfl
  · refine ⟨s2c "MD5=" ++ (md5Hex C ++ (s2c ",S=" ++ natToDec C.length)),
      ?_⟩
    unfold seedKey
    rw [if_neg hC]
    simp only [List.append_assoc]
    rfl

theorem deliveredMsg_parse (C : List Nat) (gid sd : Chars)
    (inf : Option Chars) (t : ℤ) (hsd : sd ≠ []) (hg : ',' ∉ gid)
    (g : Chars) :
    mkMessage C none (some sd) (some (seedKey C gid)) g inf t =
      deliveredMsg C gid sd (if truthyOS inf = true then inf else none) t := by
  by_cases hC : C = []
  · subst hC
    rw [show seedKey [] gid = gid ++ s2c ",MD5=None" from by
      simp [seedKey]]
    rw [mkMessage_parse1 [] sd hsd inf g t gid hg]
    simp [deliveredMsg]
  · rw [show seedKey C gid =
        gid ++ s2c ",MD5=" ++ md5Hex C ++ s2c ",S=" ++ natToDec C.length
      from by simp [seedKey, hC]]
    rw [mkMessage_parse2 C sd hsd inf g t gid (md5Hex C)
      (natToDec C.length) hg
      (fun h => (md5Hex_plain C ',' h).1 rfl)
      (fun h => (md5Hex_plain C '=' h).2.2 rfl)
      (fun h => (natToDec_plain _ ',' h).1 rfl)
      (fun h => (natToDec_plain _ '=' h).2.2 rfl)
      (natToDec_ne_nil _)]
    simp [deliveredMsg, hC]

theorem deliveredMsg_md5 (C : List Nat) (gid sd : Chars)
    (inf : Option Chars) (t : ℤ) :
    truthyOS (deliveredMsg C gid sd inf t).msg_md5 = true := by
  by_cases hC : C = [] <;>
    simp [deliveredMsg, truthyOS, hC, md5Hex_ne_nil C,
      (show s2c "None" ≠ [] from by decide)]

theorem deliveredMsg_get (C : List Nat) (gid sd : Chars)
    (inf : Option Chars) (t : ℤ) :
    (deliveredMsg C gid sd inf t).msgidGet =
      (seedKey C gid, deliveredMsg C gid sd inf t) := by
  rw [msgidGet_of_truthy _ (deliveredMsg_md5 C gid sd inf t)]
  by_cases hC : C = []
  · subst hC
    simp [seedKey, deliveredMsg, PyScalar.truthy, fmtOptStr,
      (show s2c ",MD5=" ++ s2c "None" = s2c ",MD5=None" from rfl)]
  · simp [seedKey, deliveredMsg, PyScalar.truthy, PyScalar.fmt, fmtOptStr,
      hC, natToDec_ne_nil, List.append_assoc]

/-- The combined `add` / `get_message` trace with the staged and decoded
records discharged from the serialization lemmas for both content shapes;
the remaining hypotheses concern only the conditional refresh and the
generated id (comma- and colon-free, fresh). -/
theorem add_get_full (st : MaildirState) (w : World) (C : List Nat)
    (ks : List Chars) (stR : MaildirState)
    (hks : keysOp st { w with genCtr := w.genCtr + 1 } = some (ks, stR))
    (hg1 : ',' ∉ w.genIds w.genCtr)
    (hg2 : ':' ∉ w.genIds w.genCtr)
    (hfresh : ∀ s, w.genIds w.genCtr ++ ',' :: s ∉ ks) :
    ∃ k stA wA mA,
      addOp st w C none none none none none 1 = some (k, stA, wA, mA) ∧
      mA.subdir = s2c "new" ∧
      ∃ M stB wB,
        (∀ f, getMessage (f + 2) stA wA k true = some (M, stB, wB)) ∧
        M.subdir = s2c "cur" ∧ M.content = C ∧
        (∃ fl, dget wB.files
            (st.path ++ [s2c "cur", k ++ ':' :: s2c "2,"]) = some fl ∧
          fl.content = C) ∧
        (∀ f, getMessage (f + 1) stB wB k true = some (M, stB, wB)) := by
  obtain ⟨s, hs⟩ := seedKey_cons C (w.genIds w.genCtr)
  have hMnew : ∀ g, mkMessage C none (some (s2c "new"))
      (some (seedKey C (w.genIds w.genCtr))) g none w.now =
      deliveredMsg C (w.genIds w.genCtr) (s2c "new") none w.now := by
    intro g
    rw [deliveredMsg_parse C (w.genIds w.genCtr) (s2c "new") none w.now
      (by decide) hg1 g]
    simp [truthyOS]
  have hMcur : ∀ g, mkMessage C none (some (s2c "cur"))
      (some (seedKey C (w.genIds w.genCtr))) g (some (s2c "2,")) w.now =
      deliveredMsg C (w.genIds w.genCtr) (s2c "cur") (some (s2c "2,"))
        w.now := by
    intro g
    rw [deliveredMsg_parse C (w.genIds w.genCtr) (s2c "cur")
      (some (s2c "2,")) w.now (by decide) hg1 g]
    simp [truthyOS, (show s2c "2," ≠ [] from by decide)]
  obtain ⟨stA, wA, mA, hadd, hmAsub, stB, wB, hget1, hfile, hget2⟩ :=
    add_get_trace st w C ks stR (seedKey C (w.genIds w.genCtr))
      (seedMsg C (w.genIds w.genCtr) w.now)
      (deliveredMsg C (w.genIds w.genCtr) (s2c "new") none w.now)
      (deliveredMsg C (w.genIds w.genCtr) (s2c "cur") (some (s2c "2,"))
        w.now)
      hks
      (seedMsg_get C (w.genIds w.genCtr) w.now hg1)
      (by rw [hs]; exact hfresh s)
      (seedMsg_get_self C (w.genIds w.genCtr) w.now)
      (seedMsg_contentHash C (w.genIds w.genCtr) w.now)
      rfl rfl rfl rfl
      (seedKey_colon C (w.genIds w.genCtr) hg2)
      hMnew
      (deliveredMsg_get C (w.genIds w.genCtr) (s2c "new") none w.now)
      rfl rfl
      (deliveredMsg_md5 C (w.genIds w.genCtr) (s2c "new") none w.now)
      hMcur
      rfl rfl
      (deliveredMsg_md5 C (w.genIds w.genCtr) (s2c "cur")
        (some (s2c "2,")) w.now)
  exact ⟨seedKey C (w.genIds w.genCtr), stA, wA, mA, hadd, hmAsub,
    deliveredMsg C (w.genIds w.genCtr) (s2c "cur") (some (s2c "2,")) w.now,
    stB, wB, hget1, rfl, rfl, hfile, hget2⟩


/-- C1: for every byte content `C`, `add` with content `C` on an open store
followed by `get_message` on the returned key yields a record whose content
is byte-identical to `C` (under the side hypotheses that the conditional
refresh inside `add` succeeds and that the generated id is comma-free,
colon-free and fresh against the existing keys). -/
theorem C1_add_get_roundtrip (st : MaildirState) (w : World) (C : List Nat)
    (ks : List Chars) (stR : MaildirState)
    (hks : keysOp st { w with genCtr := w.genCtr + 1 } = some (ks, stR))
    (hg1 : ',' ∉ w.genIds w.genCtr)
    (hg2 : ':' ∉ w.genIds w.genCtr)
    (hfresh : ∀ s, w.genIds w.genCtr ++ ',' :: s ∉ ks) :
    ∃ k stA wA mA M stB wB,
      addOp st w C none none none none none 1 = some (k, stA, wA, mA) ∧
      getMessage 2 stA wA k true = some (M, stB, wB) ∧
      M.content = C := by
  obtain ⟨k, stA, wA, mA, hadd, hsub, M, stB, wB, hget1, hMsub, hMc,
    hfile, hget2⟩ := add_get_full st w C ks stR hks hg1 hg2 hfresh
  exact ⟨k, stA, wA, mA, M, stB, wB, hadd, hget1 0, hMc⟩

/-- Witness for C1 at the concrete empty store `st0` in the quiet world
`w0` with the one-byte content `[104]`. -/
theorem C1_add_get_roundtrip_witness :
    (keysOp st0 { w0 with genCtr := w0.genCtr + 1 } =
      some ([], rescanState st0 { w0 with genCtr := w0.genCtr + 1 })) ∧
    (',' ∉ w0.genIds w0.genCtr) ∧ (':' ∉ w0.genIds w0.genCtr) ∧
    (∃ k stA wA mA M stB wB,
      addOp st0 w0 [104] none none none none none 1 =
        some (k, stA, wA, mA) ∧
      getMessage 2 stA wA k true = some (M, stB, wB) ∧
      M.content = [104]) :=
  ⟨by decide, by decide, by decide,
    C1_add_get_roundtrip st0 w0 [104] []
      (rescanState st0 { w0 with genCtr := w0.genCtr + 1 })
      (by decide) (by decide) (by decide)
      (fun s => List.not_mem_nil _)⟩

/-- C3: a message delivered by `add` lands in `new`; the first `get_message`
on its key returns a record in `cur` having moved the file to the `cur`
subdirectory as a side effect, and a second `get_message` on the same key
finds the record in `cur` (same side hypotheses as the round trip: the
conditional refresh succeeds and the generated id is comma-free, colon-free
and fresh). -/
theorem C3_promotion_on_read (st : MaildirState) (w : World) (C : List Nat)
    (ks : List Chars) (stR : MaildirState)
    (hks : keysOp st { w with genCtr := w.genCtr + 1 } = some (ks, stR))
    (hg1 : ',' ∉ w.genIds w.genCtr)
    (hg2 : ':' ∉ w.genIds w.genCtr)
    (hfresh : ∀ s, w.genIds w.genCtr ++ ',' :: s ∉ ks) :
    ∃ k stA wA mA,
      addOp st w C none none none none none 1 = some (k, stA, wA, mA) ∧
      mA.subdir = s2c "new" ∧
      ∃ M stB wB,
        getMessage 2 stA wA k true = some (M, stB, wB) ∧
        M.subdir = s2c "cur" ∧
        (∃ fl, dget wB.files
            (st.path ++ [s2c "cur", k ++ ':' :: s2c "2,"]) = some fl ∧
          fl.content = C) ∧
        ∃ M2 stC wC,
          getMessage 1 stB wB k true = some (M2, stC, wC) ∧
          M2.subdir = s2c "cur" := by
  obtain ⟨k, stA, wA, mA, hadd, hsub, M, stB, wB, hget1, hMsub, hMc,
    hfile, hget2⟩ := add_get_full st w C ks stR hks hg1 hg2 hfresh
  exact ⟨k, stA, wA, mA, hadd, hsub, M, stB, wB, hget1 0, hMsub, hfile,
    M, stB, wB, hget2 0, hMsub⟩

/-- Witness for C3 at the concrete empty store `st0` in the quiet world
`w0` with the one-byte content `[104]`. -/
theorem C3_promotion_on_read_witness :
    (keysOp st0 { w0 with genCtr := w0.genCtr + 1 } =
      some ([], rescanState st0 { w0 with genCtr := w0.genCtr + 1 })) ∧
    (',' ∉ w0.genIds w0.genCtr) ∧ (':' ∉ w0.genIds w0.genCtr) ∧
    (∃ k stA wA mA,
      addOp st0 w0 [104] none none none none none 1 =
        some (k, stA, wA, mA) ∧
      mA.subdir = s2c "new" ∧
      ∃ M stB wB,
        getMessage 2 stA wA k true = some (M, stB, wB) ∧
        M.subdir = s2c "cur" ∧
        (∃ fl, dget wB.files
            (st0.path ++ [s2c "cur", k ++ ':' :: s2c "2,"]) = some fl ∧
          fl.content = [104]) ∧
        ∃ M2 stC wC,
          getMessage 1 stB wB k true = some (M2, stC, wC) ∧
          M2.subdir = s2c "cur") :=
  ⟨by decide, by decide, by decide,
    C3_promotion_on_read st0 w0 [104] []
      (rescanState st0 { w0 with genCtr := w0.genCtr + 1 })
      (by decide) (by decide) (by decide)
      (fun s => List.not_mem_nil _)⟩

/-- C2 counterexample: on the empty store, `add` delivers the message into
`new` with no flags, and the resulting key — which is also the on-disk
filename recorded in the key map — contains no colon at all, where the
claim requires the filename `id + ":" + info` for every location other
than a flagless `tmp`. -/
theorem C2_counterexample :
    (addOp st0 w0 [104] none none none none none 1).map
      (fun r => (r.2.2.2.subdir, r.2.2.2.flags, dget r.2.1.keys r.1,
        decide (':' ∉ r.1))) =
      some (s2c "new", [], some [s2c "m", s2c "new", s2c "g,MD5=3fd,S=1"],
        true) := by
  decide

/-- C2 (amended): the filename `_path_for_message` chooses is the bare
serialized msgid whenever the record's location differs from `cur` and it
carries no flags (in particular in `new` as well as in `tmp`), and is the
msgid followed by `:` and the info field (defaulting to `2,` when no info
is recorded) whenever the record carries flags. These are exactly the cases
where CPython's interning-sensitive `subdir is "cur"` identity test
coincides with this model's string comparison; the flagless-`cur` case is
interning-dependent in CPython and is not claimed. -/
theorem C2_filename_encoding (st : MaildirState) (m : PyMsg) (mid : Chars)
    (m1 : PyMsg) (hget : m.msgidGet = (mid, m1)) :
    (¬ m1.subdir = s2c "cur" ∧ m1.flags = [] →
      pathForMessage st m = (st.path ++ [m1.subdir, mid], m1)) ∧
    (m1.flags ≠ [] →
      pathForMessage st m = (st.path ++ [m1.subdir,
        mid ++ ':' :: (if truthyOS m1.info then m1.info.getD []
          else s2c "2,")], m1)) := by
  constructor
  · intro hcase
    unfold pathForMessage
    rw [hget]
    simp [hcase.1, hcase.2]
  · intro hcase
    unfold pathForMessage
    rw [hget]
    simp [hcase]

/-- Witness for C2 at the flagless record `mC4` with its flag cleared: the
settled record sits in `new` and gets the bare msgid as filename. -/
theorem C2_filename_encoding_witness :
    (({ mC4 with info := none } : PyMsg).msgidGet =
      (s2c "a,MD5=None", { mC4 with info := none }) ∧
    ((¬ ({ mC4 with info := none } : PyMsg).subdir = s2c "cur" ∧
        ({ mC4 with info := none } : PyMsg).flags = [] →
      pathForMessage st0 { mC4 with info := none } =
        (st0.path ++ [({ mC4 with info := none } : PyMsg).subdir,
          s2c "a,MD5=None"], { mC4 with info := none })) ∧
    (({ mC4 with info := none } : PyMsg).flags ≠ [] →
      pathForMessage st0 { mC4 with info := none } =
        (st0.path ++ [({ mC4 with info := none } : PyMsg).subdir,
          s2c "a,MD5=None" ++ ':' ::
            (if truthyOS ({ mC4 with info := none } : PyMsg).info then
              ({ mC4 with info := none } : PyMsg).info.getD []
            else s2c "2,")], { mC4 with info := none })))) :=
  ⟨by decide,
    C2_filename_encoding st0 { mC4 with info := none } (s2c "a,MD5=None")
      { mC4 with info := none } (by decide)⟩





end MaildirLite
